import Mathlib

/-!
Shallow embedding of the sick-day reconciliation engine
(`sick_day_helper`: `config_manager.py`, `sick_day_manager.py`,
`main.py`, `web_server.py`) and proofs about its claims.

State documents are modelled as insertion-ordered association lists
(Python dicts), the live automation world as the list of entity ids that
are currently "on", and every externally visible effect (service calls,
notifications) as an explicit event trace.
-/

namespace SickDay

/-- One entry of `state.json`: a person's sick-day record
(`end_date`, `disabled_automations`), as read and written by
`config_manager.py`. -/
structure SickDayRecord where
  end_date : String
  disabled_automations : List String
deriving Repr, DecidableEq

/-- The whole `state.json` document: person id to record, insertion ordered,
each key at most once (Python dict). -/
abbrev ActiveState := List (String × SickDayRecord)

/-- The `mapping.json` document: person id to list of automation ids. -/
abbrev Mapping := List (String × List String)

/-- Python `d.get(k)` on an insertion-ordered dict. -/
def dictGet {α : Type} (st : List (String × α)) (k : String) : Option α :=
  match st with
  | [] => none
  | e :: rest => if e.1 = k then some e.2 else dictGet rest k

/-- Python `d[k] = v`: replaces the value in place if the key exists
(keeping its position), otherwise appends at the end. -/
def dictInsert {α : Type} (st : List (String × α)) (k : String) (v : α) :
    List (String × α) :=
  if st.any (fun e => e.1 = k) then
    st.map (fun e => if e.1 = k then (k, v) else e)
  else st ++ [(k, v)]

/-- Python `d.pop(k, None)`. -/
def dictRemove {α : Type} (st : List (String × α)) (k : String) :
    List (String × α) :=
  st.filter (fun e => e.1 ≠ k)

/-- config_manager.get_person_state. -/
def get_person_state (st : ActiveState) (pid : String) : Option SickDayRecord :=
  dictGet st pid

/-- config_manager.set_person_state. -/
def set_person_state (st : ActiveState) (pid end_date : String)
    (disabled_automations : List String) : ActiveState :=
  dictInsert st pid ⟨end_date, disabled_automations⟩

/-- config_manager.remove_person_state. -/
def remove_person_state (st : ActiveState) (pid : String) : ActiveState :=
  dictRemove st pid

/-- config_manager.has_active_sick_days. -/
def has_active_sick_days (st : ActiveState) : Bool :=
  !st.isEmpty

/-- config_manager.get_all_currently_disabled: the union of
`disabled_automations` over all records (a Python set; only membership
matters, so it is modelled as the concatenation). -/
def get_all_currently_disabled (st : ActiveState) : List String :=
  st.foldr (fun e acc => e.2.disabled_automations ++ acc) []

/-- Entity id constants from `constants.py`. -/
def ENTITY_ACTIVE : String := "input_boolean.sick_day_active"

def ENTITY_SUBMIT : String := "input_boolean.sick_day_submit"

def ENTITY_CANCEL : String := "input_boolean.sick_day_cancel"

def ENTITY_EXTEND : String := "input_boolean.sick_day_extend"

def NOTIFICATION_CONFIRMATION : String := "sick_day_confirmation"

def NOTIFICATION_EXPIRATION : String := "sick_day_expiration"

def DURATION_NUM_DAYS : String := "Number of Days"

/-- The live world of the host platform in the all-calls-succeed model:
the list of entity ids currently "on". -/
abbrev WorldOn := List String

/-- Effect of a successful `ha_api.turn_on` on the live world. -/
def turnOn (w : WorldOn) (id : String) : WorldOn :=
  if id ∈ w then w else w ++ [id]

/-- Effect of a successful `ha_api.turn_off` on the live world. -/
def turnOff (w : WorldOn) (id : String) : WorldOn :=
  w.filter (fun x => x ≠ id)

/-- Externally visible calls issued through `ha_api`. -/
inductive Ev
  | turnOnEv (id : String)
  | turnOffEv (id : String)
  | notifyEv (nid : String)
  | dismissEv (nid : String)
deriving Repr, DecidableEq

/-- Result of one engine operation: the new state document, the new live
world, the ordered trace of issued calls, and the Python return value. -/
structure OpResult where
  state : ActiveState
  world : WorldOn
  trace : List Ev
  ok : Bool
deriving Repr, DecidableEq

/-- The dict `already_disabled_by` built at the top of
`activate_sick_day`: for every record of a person other than `pid`, a
pair (automation id, that other person id), in iteration order.  Python
assigns into a dict, so for a repeated automation id the LAST pair wins;
`adbLookup` below reproduces that. -/
def already_disabled_by (st : ActiveState) (pid : String) :
    List (String × String) :=
  (st.filter (fun e => e.1 ≠ pid)).foldr
    (fun e acc => e.2.disabled_automations.map (fun a => (a, e.1)) ++ acc) []

/-- Dict lookup on `already_disabled_by` pairs (last assignment wins). -/
def adbLookup (l : List (String × String)) (a : String) : Option String :=
  dictGet l.reverse a

/-- One pass of the per-automation loop of `activate_sick_day`
(lines 84-99): threads the live world, and classifies each mapped
automation as actually disabled, shared, skipped or failed. -/
structure LoopResult where
  world : WorldOn
  trace : List Ev
  actually_disabled : List String
  shared : List (String × String)
  skipped : List (String × String)
  failed : List String
deriving Repr, DecidableEq

/-- The per-automation loop of `activate_sick_day`.  `fails a = true`
models the control call for `a` raising (caught by the `except` and
recorded in `failed`); otherwise the observed state is "on" exactly when
`a` is in the live world, and `turn_off` takes effect immediately. -/
def activateLoop (already : List (String × String)) (fails : String → Bool)
    (world : WorldOn) : List String → LoopResult
  | [] => ⟨world, [], [], [], [], []⟩
  | a :: rest =>
    if fails a then
      let r := activateLoop already fails world rest
      { r with failed := a :: r.failed }
    else if a ∈ world then
      let r := activateLoop already fails (turnOff world a) rest
      { r with trace := Ev.turnOffEv a :: r.trace,
               actually_disabled := a :: r.actually_disabled }
    else
      match adbLookup already a with
      | some opid =>
        let r := activateLoop already fails world rest
        { r with shared := (a, opid) :: r.shared }
      | none =>
        let r := activateLoop already fails world rest
        { r with skipped := (a, "off") :: r.skipped }

/-- sick_day_manager._resolve_person_entity: a direct hit on a mapping key
wins; otherwise the first mapping key whose live friendly name (the
`friendly` oracle; `none` models a raised or missing query, skipped by the
`continue`) equals the display name. -/
def resolve_person_entity (m : Mapping) (friendly : String → Option String)
    (display_name : String) : Option String :=
  if m.any (fun e => e.1 = display_name) then some display_name
  else (m.find? (fun e => friendly e.1 = some display_name)).map (·.1)

/-- sick_day_manager.activate_sick_day over the state document `st` and
live world `world`. -/
def activate_sick_day (m : Mapping) (friendly : String → Option String)
    (fails : String → Bool) (person_display_name end_date_str : String)
    (st : ActiveState) (world : WorldOn) : OpResult :=
  match resolve_person_entity m friendly person_display_name with
  | none =>
    { state := st, world := world,
      trace := [Ev.notifyEv NOTIFICATION_CONFIRMATION], ok := false }
  | some person_id =>
    let automations := (dictGet m person_id).getD []
    if automations.isEmpty then
      { state := st, world := world,
        trace := [Ev.notifyEv NOTIFICATION_CONFIRMATION], ok := false }
    else
      let already := already_disabled_by st person_id
      let r := activateLoop already fails world automations
      let st' := set_person_state st person_id end_date_str r.actually_disabled
      { state := st',
        world := turnOn r.world ENTITY_ACTIVE,
        trace := r.trace ++ [Ev.turnOnEv ENTITY_ACTIVE,
                             Ev.notifyEv NOTIFICATION_CONFIRMATION],
        ok := true }

/-- sick_day_manager.deactivate_sick_day.  `to_reenable` is a Python set
difference, modelled as a deduplicated filtered list (only membership and
the set of issued `turn_on` calls matter). -/
def deactivate_sick_day (person_id : String) (st : ActiveState)
    (world : WorldOn) : OpResult :=
  match get_person_state st person_id with
  | none => { state := st, world := world, trace := [], ok := false }
  | some rec =>
    let disabled_by_this := rec.disabled_automations
    let st' := remove_person_state st person_id
    let still_needed := get_all_currently_disabled st'
    let to_reenable :=
      (disabled_by_this.filter (fun a => a ∉ still_needed)).dedup
    let world' := to_reenable.foldl turnOn world
    let none_left := !has_active_sick_days st'
    { state := st',
      world := if none_left then turnOff world' ENTITY_ACTIVE else world',
      trace := to_reenable.map Ev.turnOnEv
        ++ (if none_left then [Ev.turnOffEv ENTITY_ACTIVE] else [])
        ++ [Ev.dismissEv NOTIFICATION_EXPIRATION,
            Ev.notifyEv NOTIFICATION_CONFIRMATION],
      ok := true }

/-- sick_day_manager.extend_sick_day. -/
def extend_sick_day (m : Mapping) (friendly : String → Option String)
    (person_display_name new_end_date_str : String)
    (st : ActiveState) (world : WorldOn) : OpResult :=
  match resolve_person_entity m friendly person_display_name with
  | none => { state := st, world := world, trace := [], ok := false }
  | some person_id =>
    match get_person_state st person_id with
    | none => { state := st, world := world, trace := [], ok := false }
    | some rec =>
      { state := set_person_state st person_id new_end_date_str
          rec.disabled_automations,
        world := world,
        trace := [Ev.dismissEv NOTIFICATION_EXPIRATION,
                  Ev.notifyEv NOTIFICATION_CONFIRMATION],
        ok := true }

/-- The per-expired-person body of `check_expirations` (lines 268-296):
`entry` comes from the snapshot `snap` loaded at the top, removal and the
`still_needed` recomputation act on the current document. -/
def expireStep (snap : ActiveState) (acc : ActiveState × WorldOn × List Ev)
    (person_id : String) : ActiveState × WorldOn × List Ev :=
  match dictGet snap person_id with
  | none => acc
  | some rec =>
    let st' := remove_person_state acc.1 person_id
    let still_needed := get_all_currently_disabled st'
    let to_reenable :=
      (rec.disabled_automations.filter (fun a => a ∉ still_needed)).dedup
    (st', to_reenable.foldl turnOn acc.2.1,
     acc.2.2 ++ to_reenable.map Ev.turnOnEv)

/-- Lexicographic comparison of char lists by code point: Python string
comparison.  An exhausted left side compares less-or-equal. -/
def charListLe : List Char → List Char → Bool
  | [], _ => true
  | _ :: _, [] => false
  | c :: cs, d :: ds =>
    if c < d then true else if d < c then false else charListLe cs ds

/-- Python `a <= b` on strings (`entry.get("end_date", "") <= today`). -/
def pyStrLe (a b : String) : Bool :=
  charListLe a.data b.data

/-- sick_day_manager.check_expirations at the given `today` ISO date.
Dates compare as strings, as in Python. -/
def check_expirations (today : String) (st : ActiveState)
    (world : WorldOn) : OpResult :=
  let expired := (st.filter (fun e => pyStrLe e.2.end_date today)).map (·.1)
  if expired.isEmpty then
    { state := st, world := world, trace := [], ok := true }
  else
    let res := expired.foldl (expireStep st) (st, world, [])
    let none_left := !has_active_sick_days res.1
    { state := res.1,
      world := if none_left then turnOff res.2.1 ENTITY_ACTIVE else res.2.1,
      trace := res.2.2
        ++ (if none_left then [Ev.turnOffEv ENTITY_ACTIVE] else [])
        ++ [Ev.notifyEv NOTIFICATION_EXPIRATION],
      ok := true }

/-- Outcome of one `ha_api.get_state_value` query during startup
verification: a state string, or a raised exception. -/
inductive LiveResult
  | ok (v : String)
  | err
deriving Repr, DecidableEq

/-- The keep condition of `verify_state_on_startup` for one automation:
kept when the observed state is "off", kept when the query raises, dropped
on any other observed state. -/
def keepAuto (live : String → LiveResult) (a : String) : Bool :=
  match live a with
  | .ok v => v = "off"
  | .err => true

/-- Effect of `verify_state_on_startup` on one record. -/
def verifyRecord (live : String → LiveResult) (rec : SickDayRecord) :
    SickDayRecord :=
  { rec with disabled_automations :=
      rec.disabled_automations.filter (keepAuto live) }

/-- sick_day_manager.verify_state_on_startup: the resulting document, and
whether `save_state` was called (`changed`).  The code flags `changed`
both on each drop and when a record's list shrank; both are equivalent to
the filtered list being shorter. -/
def verify_state_on_startup (live : String → LiveResult)
    (st : ActiveState) : ActiveState × Bool :=
  (st.map (fun e => (e.1, verifyRecord live e.2)),
   st.any (fun e =>
     (e.2.disabled_automations.filter (keepAuto live)).length
       ≠ e.2.disabled_automations.length))

/-- A computed end date: either `(date.today() + timedelta(days=n)).isoformat()`
or a string passed through from the input. -/
inductive EndDate
  | daysFromToday (n : Int)
  | literal (s : String)
deriving Repr, DecidableEq

/-- web_server.WizardHandler._compute_end_date.  `parsed` models
`int(float(duration_value))`: `none` when that raises `TypeError` or
`ValueError`. `raw` models `str(duration_value)` for the date branch. -/
def web_compute_end_date (duration_type : String) (parsed : Option Int)
    (raw : String) : EndDate :=
  if duration_type = "days" then
    let num_days := parsed.getD 1
    let num_days := max 1 (min num_days 365)
    .daysFromToday num_days
  else
    .literal raw

/-- main._compute_end_date.  `parsed` models `int(float(num_days_str))`
(`none` when it raises); `end_date_entity` models
`get_state_value(ENTITY_END_DATE)` (`none` for a missing entity). -/
def main_compute_end_date (duration_type : String) (parsed : Option Int)
    (end_date_entity : Option String) : EndDate :=
  if duration_type = DURATION_NUM_DAYS then
    .daysFromToday (parsed.getD 1)
  else
    match end_date_entity with
    | some s => if s ≠ "" ∧ s ≠ "unknown" then .literal s
                else .daysFromToday 1
    | none => .daysFromToday 1

/-- Outcome of one engine call as observed by the driver: a Python return
value, or a raised exception that propagates to the caller. -/
inductive CallOutcome
  | returns (b : Bool)
  | raises
deriving Repr, DecidableEq

/-- What one toggle handler in `main.py` did on a tick: whether the engine
call was dispatched, whether `_reset_toggle` was issued for the toggle,
and whether an exception escaped to the poll loop. -/
structure TickActionResult where
  dispatched : Bool
  resetIssued : Bool
  raised : Bool
deriving Repr, DecidableEq

/-- Python truthiness test `not person_name or person_name == "(none)"`
on an optional state value. -/
def noPersonSelected (person_sel : Option String) : Bool :=
  match person_sel with
  | none => true
  | some s => s = "" ∨ s = "(none)"

/-- main.handle_submit: `person_sel` is the person-select state and
`engine` the outcome of the `activate_sick_day` call.  The reset at line
108 runs only if the engine call returned. -/
def handle_submit (person_sel : Option String) (engine : CallOutcome) :
    TickActionResult :=
  if noPersonSelected person_sel then
    ⟨false, true, false⟩
  else
    match engine with
    | .returns _ => ⟨true, true, false⟩
    | .raises => ⟨true, false, true⟩

/-- main.handle_cancel: `resolved` is the result of
`_resolve_active_person_for_cancel`; the reset at line 119 runs on both
branches, but only if a dispatched engine call returned. -/
def handle_cancel (resolved : Option String) (engine : CallOutcome) :
    TickActionResult :=
  match resolved with
  | none => ⟨false, true, false⟩
  | some _ =>
    match engine with
    | .returns _ => ⟨true, true, false⟩
    | .raises => ⟨true, false, true⟩

/-- main.handle_extend, same shape as `handle_submit`. -/
def handle_extend (person_sel : Option String) (engine : CallOutcome) :
    TickActionResult :=
  if noPersonSelected person_sel then
    ⟨false, true, false⟩
  else
    match engine with
    | .returns _ => ⟨true, true, false⟩
    | .raises => ⟨true, false, true⟩

/-- One engine operation for system-level runs: a driver-triggered
activate or cancel, or a timer-triggered expiration pass. -/
inductive Op
  | activateOp (pid ed : String)
  | cancelOp (pid : String)
  | expireOp (today : String)
deriving Repr, DecidableEq

/-- The system state an operation sequence acts on: the persisted state
document plus the live world. -/
structure Sys where
  records : ActiveState
  world : WorldOn
deriving Repr, DecidableEq

/-- Run one operation in the all-calls-succeed model (friendly-name
queries unavailable, so activate resolves ids directly against mapping
keys; no control call fails). -/
def runOp (m : Mapping) (s : Sys) : Op → OpResult
  | .activateOp pid ed =>
    activate_sick_day m (fun _ => none) (fun _ => false) pid ed
      s.records s.world
  | .cancelOp pid => deactivate_sick_day pid s.records s.world
  | .expireOp today => check_expirations today s.records s.world

/-- The system state after one operation. -/
def stepOp (m : Mapping) (s : Sys) (op : Op) : Sys :=
  let r := runOp m s op
  ⟨r.state, r.world⟩

/-- The system state after a sequence of operations. -/
def runOps (m : Mapping) (s : Sys) : List Op → Sys
  | [] => s
  | op :: rest => runOps m (stepOp m s op) rest

/-- The concatenated event trace of a sequence of operations. -/
def runTrace (m : Mapping) (s : Sys) : List Op → List Ev
  | [] => []
  | op :: rest => (runOp m s op).trace ++ runTrace m (stepOp m s op) rest

/-- Number of active records whose `disabled_automations` contains `a`. -/
def numOwners (st : ActiveState) (a : String) : Nat :=
  (st.filter (fun e => decide (a ∈ e.2.disabled_automations))).length

/-- The shared-automation invariant of the spec: the automation is off
exactly when at least one active record owns it, and it is owned by at
most one record. -/
def sharedInv (s : Sys) (a : String) : Prop :=
  (a ∉ s.world ↔ 1 ≤ numOwners s.records a) ∧ numOwners s.records a ≤ 1

instance (s : Sys) (a : String) : Decidable (sharedInv s a) := by
  unfold sharedInv; infer_instance

/-- An automation the system has lost track of: it is off in the live
world but no active record owns it. -/
def orphan (s : Sys) (a : String) : Prop :=
  a ∉ s.world ∧ numOwners s.records a = 0

instance (s : Sys) (a : String) : Decidable (orphan s a) := by
  unfold orphan; infer_instance

/-- A sequence contains only driver-triggered activates and cancels. -/
def actCancelOnly : List Op → Bool
  | [] => true
  | .expireOp _ :: _ => false
  | _ :: rest => actCancelOnly rest

/-- Along the run, no activate targets a person who already has an active
record. -/
def noReactivate (m : Mapping) (s : Sys) : List Op → Bool
  | [] => true
  | op :: rest =>
    (match op with
     | .activateOp pid _ => (dictGet s.records pid).isNone
     | _ => true)
    && noReactivate m (stepOp m s op) rest

/-- Keys of the state document are pairwise distinct (Python dict). -/
def goodKeys (st : ActiveState) : Prop :=
  (st.map Prod.fst).Nodup

instance (st : ActiveState) : Decidable (goodKeys st) := by
  unfold goodKeys
  infer_instance

/-- Whether an issued call is a persistent notification. -/
def isNotify : Ev → Bool
  | .notifyEv _ => true
  | _ => false

/-- Number of persistent notifications in a trace. -/
def notifyCount (tr : List Ev) : Nat :=
  (tr.filter isNotify).length

section DictLemmas

variable {α : Type}

theorem dictGet_eq_none_iff {st : List (String × α)} {k : String} :
    dictGet st k = none ↔ ∀ e ∈ st, e.1 ≠ k := by
  induction st with
  | nil => simp [dictGet]
  | cons e rest ih =>
    by_cases h : e.1 = k <;> simp [dictGet, h, ih]

theorem dictGet_some_mem {st : List (String × α)} {k : String} {v : α}
    (h : dictGet st k = some v) : (k, v) ∈ st := by
  induction st with
  | nil => simp [dictGet] at h
  | cons e rest ih =>
    by_cases he : e.1 = k
    · simp only [dictGet, he, if_pos, Option.some.injEq] at h
      subst he
      have hx : (e.1, v) = e := by rw [← h]
      rw [hx]
      exact List.mem_cons_self _ _
    · simp only [dictGet, he, if_neg, if_false] at h
      exact List.mem_cons_of_mem _ (ih h)

theorem dictInsert_eq_append {st : List (String × α)} {k : String} {v : α}
    (h : dictGet st k = none) : dictInsert st k v = st ++ [(k, v)] := by
  have hall := dictGet_eq_none_iff.mp h
  have hany : st.any (fun e => e.1 = k) = false := by
    simp only [List.any_eq_false]
    intro e he
    simpa using hall e he
  simp [dictInsert, hany]

theorem mem_dictInsert {st : List (String × α)} {k : String} {v : α}
    {x : String × α} (h : x ∈ dictInsert st k v) :
    (x ∈ st ∧ x.1 ≠ k) ∨ x = (k, v) := by
  unfold dictInsert at h
  by_cases hany : (st.any fun e => decide (e.1 = k)) = true
  · rw [if_pos hany] at h
    rw [List.mem_map] at h
    obtain ⟨e, he, hx⟩ := h
    by_cases hek : e.1 = k
    · right; rw [← hx, if_pos hek]
    · left
      rw [← hx, if_neg hek]
      exact ⟨he, hek⟩
  · rw [if_neg hany] at h
    rw [List.mem_append, List.mem_singleton] at h
    rcases h with hm | hm
    · left
      refine ⟨hm, ?_⟩
      rw [Bool.not_eq_true, List.any_eq_false] at hany
      simpa using hany x hm
    · right; exact hm

theorem mem_dictRemove {st : List (String × α)} {k : String}
    {x : String × α} (h : x ∈ dictRemove st k) : x ∈ st :=
  List.mem_of_mem_filter h

theorem dictGet_dictRemove_self {st : List (String × α)} {k : String} :
    dictGet (dictRemove st k) k = none := by
  rw [dictGet_eq_none_iff]
  intro e he
  have := List.of_mem_filter he
  simpa using this

theorem goodKeys_dictRemove {st : ActiveState} {k : String}
    (h : goodKeys st) : goodKeys (dictRemove st k) := by
  unfold goodKeys at h ⊢
  exact ((List.filter_sublist st).map Prod.fst).nodup h

theorem goodKeys_dictInsert {st : ActiveState} {k : String}
    {v : SickDayRecord} (h : goodKeys st) :
    goodKeys (dictInsert st k v) := by
  unfold goodKeys at h ⊢
  unfold dictInsert
  by_cases hany : (st.any fun e => decide (e.1 = k)) = true
  · rw [if_pos hany]
    have : (st.map (fun e => if e.1 = k then (k, v) else e)).map Prod.fst
        = st.map Prod.fst := by
      rw [List.map_map]
      apply List.map_congr_left
      intro e _
      by_cases hek : e.1 = k <;> simp [hek]
    rw [this]; exact h
  · rw [if_neg hany, List.map_append]
    rw [List.nodup_append]
    refine ⟨h, by simp, ?_⟩
    intro x hx
    simp only [List.map_cons, List.map_nil, List.mem_singleton]
    intro hxk
    subst hxk
    rw [Bool.not_eq_true, List.any_eq_false] at hany
    simp only [List.mem_map] at hx
    obtain ⟨e, he, hek⟩ := hx
    exact absurd (by simpa using hek) (by simpa using hany e he)

theorem dictInsert_cons_ne {α : Type} {e : String × α}
    {rest : List (String × α)} {k : String} (he : e.1 ≠ k) (v : α) :
    dictInsert (e :: rest) k v = e :: dictInsert rest k v := by
  by_cases hany : (rest.any fun x => decide (x.1 = k)) = true <;>
    simp [dictInsert, List.any_cons, he, hany]

theorem dictGet_dictInsert_self {α : Type} (st : List (String × α))
    (k : String) (v : α) : dictGet (dictInsert st k v) k = some v := by
  induction st with
  | nil => simp [dictInsert, dictGet]
  | cons e rest ih =>
    by_cases he : e.1 = k
    · simp [dictInsert, dictGet, List.any_cons, he]
    · rw [dictInsert_cons_ne he]
      simp [dictGet, he, ih]

theorem dictGet_map_replace_ne {α : Type} (st : List (String × α))
    {k q : String} (hne : q ≠ k) (v : α) :
    dictGet (st.map (fun e => if e.1 = k then (k, v) else e)) q
      = dictGet st q := by
  induction st with
  | nil => rfl
  | cons e rest ih =>
    by_cases he : e.1 = k
    · have heq : ¬(k = q) := fun h => hne h.symm
      have heq2 : ¬(e.1 = q) := by rw [he]; exact heq
      simp [dictGet, he, heq, heq2, ih]
    · by_cases heq : e.1 = q <;> simp [dictGet, he, heq, hne, ih]

theorem dictGet_append {α : Type} (l₁ l₂ : List (String × α)) (q : String) :
    dictGet (l₁ ++ l₂) q
      = match dictGet l₁ q with
        | some v => some v
        | none => dictGet l₂ q := by
  induction l₁ with
  | nil => rfl
  | cons e rest ih =>
    by_cases heq : e.1 = q <;> simp [dictGet, heq, ih]

theorem dictGet_dictInsert_ne {α : Type} (st : List (String × α))
    {k q : String} (hne : q ≠ k) (v : α) :
    dictGet (dictInsert st k v) q = dictGet st q := by
  unfold dictInsert
  by_cases hany : (st.any fun e => decide (e.1 = k)) = true
  · rw [if_pos hany]
    exact dictGet_map_replace_ne st hne v
  · rw [if_neg hany, dictGet_append]
    rcases h : dictGet st q with _ | w
    · simp [dictGet, Ne.symm hne]
    · rfl

theorem map_eq_self_forall {α : Type} {f : α → α} {l : List α}
    (h : l.map f = l) : ∀ x ∈ l, f x = x := by
  induction l with
  | nil => intro x hx; cases hx
  | cons y ys ih =>
    rw [List.map_cons, List.cons.injEq] at h
    intro x hx
    rcases List.mem_cons.mp hx with rfl | hr
    · exact h.1
    · exact ih h.2 x hr

theorem dictGet_map_val {α β : Type} (f : α → β) (st : List (String × α))
    (pid : String) :
    dictGet (st.map (fun e => (e.1, f e.2))) pid
      = (dictGet st pid).map f := by
  induction st with
  | nil => rfl
  | cons e rest ih =>
    by_cases he : e.1 = pid <;> simp [dictGet, he, ih]

end DictLemmas

section WorldLemmas

theorem mem_turnOn_iff {w : WorldOn} {id x : String} :
    x ∈ turnOn w id ↔ x ∈ w ∨ x = id := by
  unfold turnOn
  by_cases h : id ∈ w
  · rw [if_pos h]
    constructor
    · exact Or.inl
    · rintro (hx | rfl)
      · exact hx
      · exact h
  · rw [if_neg h]
    simp

theorem mem_turnOff_iff {w : WorldOn} {id x : String} :
    x ∈ turnOff w id ↔ x ∈ w ∧ x ≠ id := by
  unfold turnOff
  simp [List.mem_filter]

theorem mem_foldl_turnOn {l : List String} {w : WorldOn} {x : String}
    (h : x ∈ l.foldl turnOn w) : x ∈ w ∨ x ∈ l := by
  induction l generalizing w with
  | nil => exact Or.inl h
  | cons b rest ih =>
    rcases ih h with hw | hl
    · rcases mem_turnOn_iff.mp hw with hw' | rfl
      · exact Or.inl hw'
      · exact Or.inr (List.mem_cons_self _ _)
    · exact Or.inr (List.mem_cons_of_mem _ hl)

theorem mem_foldl_turnOn_of_mem_world {l : List String} {w : WorldOn}
    {x : String} (h : x ∈ w) : x ∈ l.foldl turnOn w := by
  induction l generalizing w with
  | nil => exact h
  | cons b rest ih => exact ih (mem_turnOn_iff.mpr (Or.inl h))

theorem mem_foldl_turnOn_of_mem {l : List String} {w : WorldOn} {x : String}
    (h : x ∈ l) : x ∈ l.foldl turnOn w := by
  induction l generalizing w with
  | nil => cases h
  | cons b rest ih =>
    rcases List.mem_cons.mp h with rfl | hr
    · show x ∈ List.foldl turnOn (turnOn w x) rest
      exact mem_foldl_turnOn_of_mem_world (mem_turnOn_iff.mpr (Or.inr rfl))
    · exact ih hr

end WorldLemmas

section OwnerLemmas

theorem numOwners_nil (a : String) : numOwners [] a = 0 := rfl

theorem numOwners_append (l₁ l₂ : ActiveState) (a : String) :
    numOwners (l₁ ++ l₂) a = numOwners l₁ a + numOwners l₂ a := by
  unfold numOwners
  rw [List.filter_append, List.length_append]

theorem numOwners_pos_iff {st : ActiveState} {a : String} :
    1 ≤ numOwners st a ↔ ∃ e ∈ st, a ∈ e.2.disabled_automations := by
  unfold numOwners
  rw [Nat.one_le_iff_ne_zero, Ne, List.length_eq_zero]
  constructor
  · intro h
    rcases List.exists_mem_of_ne_nil _ h with ⟨e, he⟩
    exact ⟨e, List.mem_of_mem_filter he, by simpa using List.of_mem_filter he⟩
  · rintro ⟨e, he, ha⟩ hnil
    have : e ∈ st.filter (fun e => decide (a ∈ e.2.disabled_automations)) :=
      List.mem_filter.mpr ⟨he, by simpa using ha⟩
    rw [hnil] at this
    cases this

theorem numOwners_eq_zero_iff {st : ActiveState} {a : String} :
    numOwners st a = 0 ↔ ∀ e ∈ st, a ∉ e.2.disabled_automations := by
  constructor
  · intro h e he ha
    have : 1 ≤ numOwners st a := numOwners_pos_iff.mpr ⟨e, he, ha⟩
    omega
  · intro h
    by_contra hne
    have : 1 ≤ numOwners st a := by omega
    obtain ⟨e, he, ha⟩ := numOwners_pos_iff.mp this
    exact h e he ha

theorem numOwners_singleton (k : String) (rec : SickDayRecord) (a : String) :
    numOwners [(k, rec)] a
      = if a ∈ rec.disabled_automations then 1 else 0 := by
  unfold numOwners
  by_cases h : a ∈ rec.disabled_automations <;> simp [h]

theorem numOwners_dictRemove_of_dictGet {st : ActiveState} {pid : String}
    {rec : SickDayRecord} (hg : goodKeys st)
    (h : dictGet st pid = some rec) (a : String) :
    numOwners st a = numOwners (dictRemove st pid) a
      + (if a ∈ rec.disabled_automations then 1 else 0) := by
  induction st with
  | nil => simp [dictGet] at h
  | cons e rest ih =>
    have hg' : goodKeys rest := (List.nodup_cons.mp hg).2
    by_cases he : e.1 = pid
    · simp only [dictGet, he, if_pos, Option.some.injEq] at h
      subst h
      have hnotin : ∀ x ∈ rest, x.1 ≠ pid := by
        intro x hx hxk
        have := (List.nodup_cons.mp hg).1
        rw [he] at this
        exact this (by
          rw [← hxk]
          exact List.mem_map_of_mem Prod.fst hx)
      have hrem : dictRemove rest pid = rest := by
        unfold dictRemove
        apply List.filter_eq_self.mpr
        intro x hx
        simpa using hnotin x hx
      unfold dictRemove
      rw [List.filter_cons]
      have : ¬(e.1 ≠ pid) := by simpa using he
      simp only [this, decide_eq_true_eq, if_neg, decide_False]
      show numOwners (e :: rest) a
        = numOwners (List.filter _ rest) a
          + (if a ∈ e.2.disabled_automations then 1 else 0)
      have hcons : numOwners (e :: rest) a
          = (if a ∈ e.2.disabled_automations then 1 else 0)
            + numOwners rest a := by
        show numOwners ([e] ++ rest) a = _
        rw [numOwners_append, numOwners_singleton e.1 e.2 a]
      rw [hcons]
      show _ = numOwners (dictRemove rest pid) a + _
      rw [hrem]
      omega
    · simp only [dictGet, he, if_neg, if_false] at h
      have he' : e.1 ≠ pid := he
      have hcons : numOwners (e :: rest) a
          = (if a ∈ e.2.disabled_automations then 1 else 0)
            + numOwners rest a := by
        show numOwners ([e] ++ rest) a = _
        rw [numOwners_append, numOwners_singleton e.1 e.2 a]
      have hrem : dictRemove (e :: rest) pid = e :: dictRemove rest pid := by
        unfold dictRemove
        rw [List.filter_cons]
        simp [he']
      rw [hcons, hrem]
      have hcons' : numOwners (e :: dictRemove rest pid) a
          = (if a ∈ e.2.disabled_automations then 1 else 0)
            + numOwners (dictRemove rest pid) a := by
        show numOwners ([e] ++ dictRemove rest pid) a = _
        rw [numOwners_append, numOwners_singleton e.1 e.2 a]
      rw [hcons']
      rw [ih hg' h]
      omega

end OwnerLemmas

section StillNeededLemmas

theorem mem_get_all_currently_disabled {st : ActiveState} {a : String} :
    a ∈ get_all_currently_disabled st
      ↔ ∃ e ∈ st, a ∈ e.2.disabled_automations := by
  induction st with
  | nil => simp [get_all_currently_disabled]
  | cons e rest ih =>
    unfold get_all_currently_disabled at ih ⊢
    rw [List.foldr_cons, List.mem_append, ih]
    constructor
    · rintro (h | ⟨e', he', ha⟩)
      · exact ⟨e, List.mem_cons_self _ _, h⟩
      · exact ⟨e', List.mem_cons_of_mem _ he', ha⟩
    · rintro ⟨e', he', ha⟩
      rcases List.mem_cons.mp he' with rfl | hr
      · exact Or.inl ha
      · exact Or.inr ⟨e', hr, ha⟩

end StillNeededLemmas

section LoopLemmas

variable {already : List (String × String)} {fails : String → Bool}
variable {world : WorldOn} {autos : List String} {a : String}

/-- The loop never turns anything on: an id absent from the live world at
entry is still absent at exit. -/
theorem activateLoop_world_not_mem (h : a ∉ world) :
    a ∉ (activateLoop already fails world autos).world := by
  induction autos generalizing world with
  | nil => exact h
  | cons b rest ih =>
    unfold activateLoop
    by_cases hf : fails b = true
    · rw [if_pos hf]; exact ih h
    · rw [if_neg hf]
      by_cases hb : b ∈ world
      · rw [if_pos hb]
        exact ih (fun hx => h (mem_turnOff_iff.mp hx).1)
      · rw [if_neg hb]
        cases adbLookup already b <;> exact ih h

/-- An id off at entry is never classified as actually disabled. -/
theorem activateLoop_off_not_disabled (h : a ∉ world) :
    a ∉ (activateLoop already fails world autos).actually_disabled := by
  induction autos generalizing world with
  | nil => simp [activateLoop]
  | cons b rest ih =>
    unfold activateLoop
    by_cases hf : fails b = true
    · rw [if_pos hf]; exact ih h
    · rw [if_neg hf]
      by_cases hb : b ∈ world
      · rw [if_pos hb]
        intro hmem
        rcases List.mem_cons.mp hmem with rfl | hr
        · exact h hb
        · exact ih (fun hx => h (mem_turnOff_iff.mp hx).1) hr
      · rw [if_neg hb]
        cases adbLookup already b <;> exact ih h

/-- Everything classified as actually disabled came from the mapped list. -/
theorem activateLoop_disabled_sub
    (h : a ∈ (activateLoop already fails world autos).actually_disabled) :
    a ∈ autos := by
  induction autos generalizing world with
  | nil => simp [activateLoop] at h
  | cons b rest ih =>
    unfold activateLoop at h
    by_cases hf : fails b = true
    · rw [if_pos hf] at h
      exact List.mem_cons_of_mem _ (ih h)
    · rw [if_neg hf] at h
      by_cases hb : b ∈ world
      · rw [if_pos hb] at h
        rcases List.mem_cons.mp h with rfl | hr
        · exact List.mem_cons_self _ _
        · exact List.mem_cons_of_mem _ (ih hr)
      · rw [if_neg hb] at h
        rcases hl : adbLookup already b with _ | opid <;> rw [hl] at h <;>
          exact List.mem_cons_of_mem _ (ih h)

/-- A mapped id that is on at entry and whose calls succeed is turned off
and recorded as actually disabled. -/
theorem activateLoop_on_disabled (hw : a ∈ world) (hf : fails a = false)
    (ha : a ∈ autos) :
    a ∈ (activateLoop already fails world autos).actually_disabled
      ∧ a ∉ (activateLoop already fails world autos).world := by
  induction autos generalizing world with
  | nil => cases ha
  | cons b rest ih =>
    rcases List.mem_cons.mp ha with rfl | hr
    · unfold activateLoop
      rw [if_neg (by simp [hf]), if_pos hw]
      constructor
      · exact List.mem_cons_self _ _
      · exact activateLoop_world_not_mem
          (fun hx => (mem_turnOff_iff.mp hx).2 rfl)
    · unfold activateLoop
      by_cases hfb : fails b = true
      · rw [if_pos hfb]; exact ih hw hr
      · rw [if_neg hfb]
        by_cases hb : b ∈ world
        · rw [if_pos hb]
          by_cases hab : a = b
          · subst hab
            refine ⟨List.mem_cons_self _ _, ?_⟩
            exact activateLoop_world_not_mem
              (fun hx => (mem_turnOff_iff.mp hx).2 rfl)
          · have h2 := ih (mem_turnOff_iff.mpr ⟨hw, hab⟩) hr
            exact ⟨List.mem_cons_of_mem _ h2.1, h2.2⟩
        · rw [if_neg hb]
          cases adbLookup already b <;> exact ih hw hr

/-- An id not in the mapped list keeps its live on/off state through the
loop. -/
theorem activateLoop_world_frame (hna : a ∉ autos) :
    a ∈ (activateLoop already fails world autos).world ↔ a ∈ world := by
  induction autos generalizing world with
  | nil => exact Iff.rfl
  | cons b rest ih =>
    have hab : a ≠ b := fun h => hna (h ▸ List.mem_cons_self _ _)
    have hnr : a ∉ rest := fun h => hna (List.mem_cons_of_mem _ h)
    unfold activateLoop
    by_cases hf : fails b = true
    · rw [if_pos hf]; exact ih hnr
    · rw [if_neg hf]
      by_cases hb : b ∈ world
      · rw [if_pos hb]
        rw [ih hnr]
        exact ⟨fun hx => (mem_turnOff_iff.mp hx).1,
               fun hx => mem_turnOff_iff.mpr ⟨hx, hab⟩⟩
      · rw [if_neg hb]
        cases adbLookup already b <;> exact ih hnr

/-- The loop issues only turn-off calls: no turn-on event in its trace. -/
theorem activateLoop_no_turnOn (x : String) :
    Ev.turnOnEv x ∉ (activateLoop already fails world autos).trace := by
  induction autos generalizing world with
  | nil => simp [activateLoop]
  | cons b rest ih =>
    unfold activateLoop
    by_cases hf : fails b = true
    · rw [if_pos hf]; exact ih
    · rw [if_neg hf]
      by_cases hb : b ∈ world
      · rw [if_pos hb]
        intro hmem
        rcases List.mem_cons.mp hmem with heq | hr
        · cases heq
        · exact ih hr
      · rw [if_neg hb]
        cases adbLookup already b <;> exact ih

/-- A mapped id that is off at entry, succeeds, and is not credited to
another record is classified as skipped with observed state "off". -/
theorem activateLoop_skipped (hw : a ∉ world) (hf : fails a = false)
    (hadb : adbLookup already a = none) (ha : a ∈ autos) :
    (a, "off") ∈ (activateLoop already fails world autos).skipped := by
  induction autos generalizing world with
  | nil => cases ha
  | cons b rest ih =>
    rcases List.mem_cons.mp ha with rfl | hr
    · unfold activateLoop
      rw [if_neg (by simp [hf]), if_neg hw, hadb]
      exact List.mem_cons_self _ _
    · unfold activateLoop
      by_cases hfb : fails b = true
      · rw [if_pos hfb]; exact ih hw hr
      · rw [if_neg hfb]
        by_cases hb : b ∈ world
        · rw [if_pos hb]
          exact ih (fun hx => hw (mem_turnOff_iff.mp hx).1) hr
        · rw [if_neg hb]
          rcases hl : adbLookup already b with _ | opid
          · exact List.mem_cons_of_mem _ (ih hw hr)
          · exact ih hw hr

end LoopLemmas

section ShapeLemmas

theorem activate_sick_day_unresolved (m : Mapping)
    (friendly : String → Option String) (fails : String → Bool)
    (name ed : String) (st : ActiveState) (world : WorldOn)
    (hres : resolve_person_entity m friendly name = none) :
    activate_sick_day m friendly fails name ed st world
      = { state := st, world := world,
          trace := [Ev.notifyEv NOTIFICATION_CONFIRMATION], ok := false } := by
  unfold activate_sick_day
  rw [hres]

theorem activate_sick_day_resolved (m : Mapping)
    (friendly : String → Option String) (fails : String → Bool)
    (name ed : String) (st : ActiveState) (world : WorldOn) (pid : String)
    (hres : resolve_person_entity m friendly name = some pid) :
    activate_sick_day m friendly fails name ed st world
      = if ((dictGet m pid).getD []).isEmpty = true then
          { state := st, world := world,
            trace := [Ev.notifyEv NOTIFICATION_CONFIRMATION], ok := false }
        else
          let r := activateLoop (already_disabled_by st pid) fails world
            ((dictGet m pid).getD [])
          { state := set_person_state st pid ed r.actually_disabled,
            world := turnOn r.world ENTITY_ACTIVE,
            trace := r.trace ++ [Ev.turnOnEv ENTITY_ACTIVE,
                                 Ev.notifyEv NOTIFICATION_CONFIRMATION],
            ok := true } := by
  unfold activate_sick_day
  rw [hres]

theorem deactivate_sick_day_none (pid : String) (st : ActiveState)
    (world : WorldOn) (h : get_person_state st pid = none) :
    deactivate_sick_day pid st world
      = { state := st, world := world, trace := [], ok := false } := by
  unfold deactivate_sick_day
  rw [h]

theorem deactivate_sick_day_some (pid : String) (st : ActiveState)
    (world : WorldOn) (rec : SickDayRecord)
    (h : get_person_state st pid = some rec) :
    deactivate_sick_day pid st world
      = let st' := remove_person_state st pid
        let still_needed := get_all_currently_disabled st'
        let to_reenable :=
          (rec.disabled_automations.filter (fun a => a ∉ still_needed)).dedup
        let world' := to_reenable.foldl turnOn world
        let none_left := !has_active_sick_days st'
        { state := st',
          world := if none_left then turnOff world' ENTITY_ACTIVE else world',
          trace := to_reenable.map Ev.turnOnEv
            ++ (if none_left then [Ev.turnOffEv ENTITY_ACTIVE] else [])
            ++ [Ev.dismissEv NOTIFICATION_EXPIRATION,
                Ev.notifyEv NOTIFICATION_CONFIRMATION],
          ok := true } := by
  unfold deactivate_sick_day
  rw [h]

theorem extend_sick_day_unresolved (m : Mapping)
    (friendly : String → Option String) (name ed : String)
    (st : ActiveState) (world : WorldOn)
    (hres : resolve_person_entity m friendly name = none) :
    extend_sick_day m friendly name ed st world
      = { state := st, world := world, trace := [], ok := false } := by
  unfold extend_sick_day
  rw [hres]

theorem extend_sick_day_none (m : Mapping)
    (friendly : String → Option String) (name ed : String)
    (st : ActiveState) (world : WorldOn) (pid : String)
    (hres : resolve_person_entity m friendly name = some pid)
    (h : get_person_state st pid = none) :
    extend_sick_day m friendly name ed st world
      = { state := st, world := world, trace := [], ok := false } := by
  unfold extend_sick_day
  rw [hres]
  simp only [h]

theorem extend_sick_day_some (m : Mapping)
    (friendly : String → Option String) (name ed : String)
    (st : ActiveState) (world : WorldOn) (pid : String)
    (rec : SickDayRecord)
    (hres : resolve_person_entity m friendly name = some pid)
    (h : get_person_state st pid = some rec) :
    extend_sick_day m friendly name ed st world
      = { state := set_person_state st pid ed rec.disabled_automations,
          world := world,
          trace := [Ev.dismissEv NOTIFICATION_EXPIRATION,
                    Ev.notifyEv NOTIFICATION_CONFIRMATION],
          ok := true } := by
  unfold extend_sick_day
  rw [hres]
  simp only [h]

end ShapeLemmas

section StepLemmas

theorem mem_foldl_turnOn_frame {l : List String} {w : WorldOn} {x : String}
    (h : x ∉ l) : x ∈ l.foldl turnOn w ↔ x ∈ w := by
  induction l generalizing w with
  | nil => exact Iff.rfl
  | cons b rest ih =>
    have hxb : x ≠ b := fun hx => h (hx ▸ List.mem_cons_self _ _)
    have hr : x ∉ rest := fun hx => h (List.mem_cons_of_mem _ hx)
    show x ∈ List.foldl turnOn (turnOn w b) rest ↔ x ∈ w
    rw [ih hr, mem_turnOn_iff]
    simp [hxb]

theorem numOwners_set_fresh {st : ActiveState} {pid : String}
    (hfresh : dictGet st pid = none) (ed : String) (autos : List String)
    (a : String) :
    numOwners (set_person_state st pid ed autos) a
      = numOwners st a + (if a ∈ autos then 1 else 0) := by
  unfold set_person_state
  rw [dictInsert_eq_append hfresh, numOwners_append, numOwners_singleton]

theorem resolve_none_friendly (m : Mapping) (name : String) :
    resolve_person_entity m (fun _ => none) name
      = if (m.any fun e => decide (e.1 = name)) = true then some name
        else none := by
  unfold resolve_person_entity
  by_cases h : (m.any fun e => decide (e.1 = name)) = true
  · rw [if_pos h, if_pos h]
  · rw [if_neg h, if_neg h]
    have hf : m.find?
        (fun e => decide ((fun _ => (none : Option String)) e.1
          = some name)) = none := by
      apply List.find?_eq_none.mpr
      intro x _
      simp
    rw [hf]
    rfl

/-- Activation on a person with no active record preserves the
shared-automation invariant for any automation other than the active
indicator. -/
theorem sharedInv_step_activate (m : Mapping) (s : Sys) {a : String}
    (pid ed : String) (hA : a ≠ ENTITY_ACTIVE)
    (hfresh : dictGet s.records pid = none) (hInv : sharedInv s a) :
    sharedInv (stepOp m s (.activateOp pid ed)) a := by
  have hstep : stepOp m s (.activateOp pid ed)
      = ⟨(activate_sick_day m (fun _ => none) (fun _ => false) pid ed
            s.records s.world).state,
         (activate_sick_day m (fun _ => none) (fun _ => false) pid ed
            s.records s.world).world⟩ := rfl
  rw [hstep]
  by_cases hany : (m.any fun e => decide (e.1 = pid)) = true
  · have hres : resolve_person_entity m (fun _ => none) pid = some pid := by
      rw [resolve_none_friendly, if_pos hany]
    rw [activate_sick_day_resolved m _ _ pid ed s.records s.world pid hres]
    by_cases hemp : ((dictGet m pid).getD []).isEmpty = true
    · rw [if_pos hemp]
      exact hInv
    · rw [if_neg hemp]
      set autos := (dictGet m pid).getD [] with hautos
      set r := activateLoop (already_disabled_by s.records pid)
        (fun _ => false) s.world autos with hr
      have hnum : numOwners (set_person_state s.records pid ed
          r.actually_disabled) a
          = numOwners s.records a
            + (if a ∈ r.actually_disabled then 1 else 0) :=
        numOwners_set_fresh hfresh _ _ _
      by_cases hw : a ∈ s.world
      · have hn0 : numOwners s.records a = 0 := by
          rcases Nat.eq_zero_or_pos (numOwners s.records a) with h0 | hpos
          · exact h0
          · exact absurd hw (hInv.1.mpr hpos)
        by_cases haut : a ∈ autos
        · obtain ⟨hd, hnw⟩ := activateLoop_on_disabled hw (by rfl) haut
          constructor
          · rw [hnum, hn0, if_pos hd]
            constructor
            · intro _; omega
            · intro _ hmem
              rcases mem_turnOn_iff.mp hmem with hx | hx
              · exact hnw hx
              · exact hA hx
          · rw [hnum, hn0, if_pos hd]
        · have hfr : a ∈ r.world ↔ a ∈ s.world :=
            activateLoop_world_frame haut
          have hnd : a ∉ r.actually_disabled :=
            fun hx => haut (activateLoop_disabled_sub hx)
          have hw' : a ∈ turnOn r.world ENTITY_ACTIVE :=
            mem_turnOn_iff.mpr (Or.inl (hfr.mpr hw))
          constructor
          · rw [hnum, hn0, if_neg hnd]
            constructor
            · intro hx; exact absurd hw' hx
            · intro hx; omega
          · rw [hnum, hn0, if_neg hnd]
            omega
      · have hn1 : 1 ≤ numOwners s.records a := hInv.1.mp hw
        have hnd : a ∉ r.actually_disabled := activateLoop_off_not_disabled hw
        have hnw : a ∉ r.world := activateLoop_world_not_mem hw
        have hw' : a ∉ turnOn r.world ENTITY_ACTIVE := by
          intro hmem
          rcases mem_turnOn_iff.mp hmem with hx | hx
          · exact hnw hx
          · exact hA hx
        constructor
        · rw [hnum, if_neg hnd]
          constructor
          · intro _; omega
          · intro _; exact hw'
        · rw [hnum, if_neg hnd]
          have := hInv.2
          omega
  · have hres : resolve_person_entity m (fun _ => none) pid = none := by
      rw [resolve_none_friendly, if_neg hany]
    rw [activate_sick_day_unresolved m _ _ pid ed s.records s.world hres]
    exact hInv

/-- Cancellation preserves the shared-automation invariant for any
automation other than the active indicator. -/
theorem sharedInv_step_cancel (m : Mapping) (s : Sys) {a : String}
    (pid : String) (hA : a ≠ ENTITY_ACTIVE) (hg : goodKeys s.records)
    (hInv : sharedInv s a) :
    sharedInv (stepOp m s (.cancelOp pid)) a := by
  have hstep : stepOp m s (.cancelOp pid)
      = ⟨(deactivate_sick_day pid s.records s.world).state,
         (deactivate_sick_day pid s.records s.world).world⟩ := rfl
  rw [hstep]
  rcases hrec : get_person_state s.records pid with _ | rec
  · rw [deactivate_sick_day_none pid s.records s.world hrec]
    exact hInv
  · rw [deactivate_sick_day_some pid s.records s.world rec hrec]
    have hget : dictGet s.records pid = some rec := hrec
    set st' := remove_person_state s.records pid with hst'
    set still_needed := get_all_currently_disabled st' with hsn
    set to_reenable :=
      (rec.disabled_automations.filter
        (fun x => decide (x ∉ still_needed))).dedup with htr
    set world2 := to_reenable.foldl turnOn s.world with hw2
    have hsplit : numOwners s.records a = numOwners st' a
        + (if a ∈ rec.disabled_automations then 1 else 0) :=
      numOwners_dictRemove_of_dictGet hg hget a
    have hindw : ∀ w : WorldOn,
        (a ∈ (if (!has_active_sick_days st') = true
          then turnOff w ENTITY_ACTIVE else w)) ↔ a ∈ w := by
      intro w
      by_cases hnl : (!has_active_sick_days st') = true
      · rw [if_pos hnl, mem_turnOff_iff]
        simp [hA]
      · rw [if_neg hnl]
    by_cases harec : a ∈ rec.disabled_automations
    · have hmem : (pid, rec) ∈ s.records := dictGet_some_mem hget
      have hpos : 1 ≤ numOwners s.records a :=
        numOwners_pos_iff.mpr ⟨(pid, rec), hmem, harec⟩
      have hn1 : numOwners s.records a = 1 := le_antisymm hInv.2 hpos
      have hn'0 : numOwners st' a = 0 := by
        rw [if_pos harec] at hsplit
        omega
      have hnsn : a ∉ still_needed := by
        intro hx
        obtain ⟨e, he, ha⟩ := mem_get_all_currently_disabled.mp hx
        have : 1 ≤ numOwners st' a := numOwners_pos_iff.mpr ⟨e, he, ha⟩
        omega
      have hre : a ∈ to_reenable := by
        rw [htr, List.mem_dedup, List.mem_filter]
        exact ⟨harec, by simpa using hnsn⟩
      have hwa : a ∈ world2 := mem_foldl_turnOn_of_mem hre
      constructor
      · rw [hn'0]
        constructor
        · intro hx
          exact absurd ((hindw world2).mpr hwa) hx
        · intro hx; omega
      · rw [hn'0]; omega
    · have hn'eq : numOwners st' a = numOwners s.records a := by
        rw [if_neg harec] at hsplit
        omega
      have hnre : a ∉ to_reenable := by
        rw [htr, List.mem_dedup, List.mem_filter]
        rintro ⟨hx, _⟩
        exact harec hx
      have hwiff : a ∈ world2 ↔ a ∈ s.world := mem_foldl_turnOn_frame hnre
      constructor
      · rw [hn'eq]
        constructor
        · intro hx
          apply hInv.1.mp
          intro hw
          exact hx ((hindw world2).mpr (hwiff.mpr hw))
        · intro hx hmem
          exact absurd (hwiff.mp ((hindw world2).mp hmem)) (hInv.1.mpr hx)
      · rw [hn'eq]; exact hInv.2

/-- Every operation keeps the state document's keys distinct. -/
theorem goodKeys_stepOp (m : Mapping) (s : Sys) (op : Op)
    (hg : goodKeys s.records) : goodKeys (stepOp m s op).records := by
  cases op with
  | activateOp pid ed =>
    show goodKeys (activate_sick_day m (fun _ => none) (fun _ => false)
      pid ed s.records s.world).state
    rcases hres : resolve_person_entity m (fun _ => none) pid with _ | person_id
    · rw [activate_sick_day_unresolved m _ _ pid ed s.records s.world hres]
      exact hg
    · rw [activate_sick_day_resolved m _ _ pid ed s.records s.world
        person_id hres]
      by_cases hemp : ((dictGet m person_id).getD []).isEmpty = true
      · rw [if_pos hemp]
        exact hg
      · rw [if_neg hemp]
        exact goodKeys_dictInsert hg
  | cancelOp pid =>
    show goodKeys (deactivate_sick_day pid s.records s.world).state
    rcases hrec : get_person_state s.records pid with _ | rec
    · rw [deactivate_sick_day_none pid s.records s.world hrec]
      exact hg
    · rw [deactivate_sick_day_some pid s.records s.world rec hrec]
      exact goodKeys_dictRemove hg
  | expireOp today =>
    show goodKeys (check_expirations today s.records s.world).state
    unfold check_expirations
    by_cases hemp : ((s.records.filter
        (fun e => pyStrLe e.2.end_date today)).map (·.1)).isEmpty = true
    · rw [if_pos hemp]
      exact hg
    · rw [if_neg hemp]
      have hfold : ∀ (l : List String) (acc : ActiveState × WorldOn × List Ev),
          goodKeys acc.1 → goodKeys ((l.foldl (expireStep s.records) acc)).1 := by
        intro l
        induction l with
        | nil => intro acc h; exact h
        | cons p rest ih =>
          intro acc h
          apply ih
          unfold expireStep
          rcases dictGet s.records p with _ | rec
          · exact h
          · exact goodKeys_dictRemove h
      exact hfold _ _ hg

end StepLemmas

section RunLemmas

theorem sharedInv_runOps (m : Mapping) {a : String} (hA : a ≠ ENTITY_ACTIVE)
    (s : Sys) (ops : List Op)
    (hac : actCancelOnly ops = true)
    (hnr : noReactivate m s ops = true)
    (hg : goodKeys s.records) (hInv : sharedInv s a) :
    sharedInv (runOps m s ops) a := by
  induction ops generalizing s with
  | nil => exact hInv
  | cons op rest ih =>
    cases op with
    | activateOp pid ed =>
      simp only [noReactivate, Bool.and_eq_true] at hnr
      obtain ⟨h1, h2⟩ := hnr
      have hfresh : dictGet s.records pid = none :=
        Option.isNone_iff_eq_none.mp h1
      have hac' : actCancelOnly rest = true := hac
      exact ih _ hac' h2 (goodKeys_stepOp m s _ hg)
        (sharedInv_step_activate m s pid ed hA hfresh hInv)
    | cancelOp pid =>
      simp only [noReactivate, Bool.and_eq_true] at hnr
      obtain ⟨_, h2⟩ := hnr
      have hac' : actCancelOnly rest = true := hac
      exact ih _ hac' h2 (goodKeys_stepOp m s _ hg)
        (sharedInv_step_cancel m s pid hA hg hInv)
    | expireOp today =>
      exact absurd hac (by simp [actCancelOnly])

theorem actCancelOnly_append {l₁ l₂ : List Op}
    (h : actCancelOnly (l₁ ++ l₂) = true) : actCancelOnly l₁ = true := by
  induction l₁ with
  | nil => rfl
  | cons op rest ih =>
    cases op with
    | activateOp pid ed => exact ih h
    | cancelOp pid => exact ih h
    | expireOp today => exact h

theorem noReactivate_append (m : Mapping) {s : Sys} {l₁ l₂ : List Op}
    (h : noReactivate m s (l₁ ++ l₂) = true) :
    noReactivate m s l₁ = true := by
  induction l₁ generalizing s with
  | nil => rfl
  | cons op rest ih =>
    simp only [List.cons_append, noReactivate, Bool.and_eq_true] at h ⊢
    exact ⟨h.1, ih h.2⟩

end RunLemmas

section OrphanLemmas

theorem mem_adb_foldr {l : ActiveState} {p : String × String}
    (hp : p ∈ l.foldr
      (fun e acc => e.2.disabled_automations.map (fun a => (a, e.1)) ++ acc)
      []) :
    ∃ e ∈ l, p.2 = e.1 ∧ p.1 ∈ e.2.disabled_automations := by
  induction l with
  | nil => cases hp
  | cons e rest ih =>
    rw [List.foldr_cons, List.mem_append] at hp
    rcases hp with hm | hm
    · rw [List.mem_map] at hm
      obtain ⟨x, hx, hxp⟩ := hm
      refine ⟨e, List.mem_cons_self _ _, ?_, ?_⟩
      · rw [← hxp]
      · rw [← hxp]
        exact hx
    · obtain ⟨e', he', h1, h2⟩ := ih hm
      exact ⟨e', List.mem_cons_of_mem _ he', h1, h2⟩

/-- If no record of another person owns `a`, the `already_disabled_by`
dict has no entry for `a`. -/
theorem adbLookup_already_eq_none {st : ActiveState} {pid a : String}
    (h : ∀ e ∈ st, e.1 ≠ pid → a ∉ e.2.disabled_automations) :
    adbLookup (already_disabled_by st pid) a = none := by
  unfold adbLookup
  rw [dictGet_eq_none_iff]
  intro p hp
  rw [List.mem_reverse] at hp
  unfold already_disabled_by at hp
  obtain ⟨e, he, _, h2⟩ := mem_adb_foldr hp
  have he2 := List.mem_of_mem_filter he
  have hne : e.1 ≠ pid := by simpa using List.of_mem_filter he
  intro hpa
  exact h e he2 hne (hpa ▸ h2)

/-- The expiration fold preserves orphanhood: it never turns on, and
never creates an owner for, an automation no snapshot record owns. -/
theorem expireStep_fold_orphan (snap : ActiveState) {a : String}
    (hsnap : numOwners snap a = 0) (l : List String)
    (acc : ActiveState × WorldOn × List Ev)
    (hacc : numOwners acc.1 a = 0 ∧ a ∉ acc.2.1
      ∧ Ev.turnOnEv a ∉ acc.2.2) :
    numOwners (l.foldl (expireStep snap) acc).1 a = 0
    ∧ a ∉ (l.foldl (expireStep snap) acc).2.1
    ∧ Ev.turnOnEv a ∉ (l.foldl (expireStep snap) acc).2.2 := by
  induction l generalizing acc with
  | nil => exact hacc
  | cons p rest ih =>
    rw [List.foldl_cons]
    apply ih
    obtain ⟨h1, h2, h3⟩ := hacc
    unfold expireStep
    rcases hg : dictGet snap p with _ | rec
    · exact ⟨h1, h2, h3⟩
    · have hna : a ∉ rec.disabled_automations :=
        numOwners_eq_zero_iff.mp hsnap _ (dictGet_some_mem hg)
      set st' := remove_person_state acc.1 p with hst'
      set tre := (rec.disabled_automations.filter
        (fun x => decide (x ∉ get_all_currently_disabled st'))).dedup
        with htre
      have hnre : a ∉ tre := by
        rw [htre, List.mem_dedup, List.mem_filter]
        rintro ⟨hx, _⟩
        exact hna hx
      refine ⟨?_, ?_, ?_⟩
      · rw [numOwners_eq_zero_iff]
        intro e he
        exact numOwners_eq_zero_iff.mp h1 e (mem_dictRemove he)
      · intro hx
        rcases mem_foldl_turnOn hx with hx | hx
        · exact h2 hx
        · exact hnre hx
      · intro hx
        rw [List.mem_append] at hx
        rcases hx with hx | hx
        · exact h3 hx
        · rw [List.mem_map] at hx
          obtain ⟨x, hxm, hxe⟩ := hx
          injection hxe with hxa
          exact hnre (hxa ▸ hxm)

/-- One operation preserves orphanhood and issues no turn-on for the
orphaned automation. -/
theorem orphan_step (m : Mapping) (s : Sys) {a : String} (op : Op)
    (hA : a ≠ ENTITY_ACTIVE) (ho : orphan s a) :
    orphan (stepOp m s op) a ∧ Ev.turnOnEv a ∉ (runOp m s op).trace := by
  obtain ⟨hw, hn⟩ := ho
  have hnall : ∀ e ∈ s.records, a ∉ e.2.disabled_automations :=
    numOwners_eq_zero_iff.mp hn
  cases op with
  | activateOp pid ed =>
    have hst : stepOp m s (.activateOp pid ed)
        = ⟨(activate_sick_day m (fun _ => none) (fun _ => false) pid ed
              s.records s.world).state,
           (activate_sick_day m (fun _ => none) (fun _ => false) pid ed
              s.records s.world).world⟩ := rfl
    have hrn : runOp m s (.activateOp pid ed)
        = activate_sick_day m (fun _ => none) (fun _ => false) pid ed
            s.records s.world := rfl
    rw [hst, hrn]
    rcases hres : resolve_person_entity m (fun _ => none) pid with _ | person_id
    · rw [activate_sick_day_unresolved m _ _ pid ed s.records s.world hres]
      exact ⟨⟨hw, hn⟩, by simp⟩
    · rw [activate_sick_day_resolved m _ _ pid ed s.records s.world
        person_id hres]
      by_cases hemp : ((dictGet m person_id).getD []).isEmpty = true
      · rw [if_pos hemp]
        exact ⟨⟨hw, hn⟩, by simp⟩
      · rw [if_neg hemp]
        set r := activateLoop (already_disabled_by s.records person_id)
          (fun _ => false) s.world ((dictGet m person_id).getD []) with hr
        have hnd : a ∉ r.actually_disabled :=
          activateLoop_off_not_disabled hw
        have hnw : a ∉ r.world := activateLoop_world_not_mem hw
        refine ⟨⟨?_, ?_⟩, ?_⟩
        · intro hmem
          rcases mem_turnOn_iff.mp hmem with hx | hx
          · exact hnw hx
          · exact hA hx
        · rw [numOwners_eq_zero_iff]
          intro e he
          rcases mem_dictInsert he with ⟨hest, _⟩ | rfl
          · exact hnall e hest
          · exact hnd
        · intro hmem
          rw [List.mem_append] at hmem
          rcases hmem with hm | hm
          · exact activateLoop_no_turnOn a hm
          · rcases List.mem_cons.mp hm with heq | hm2
            · injection heq with hxa
              exact hA hxa
            · simp at hm2
  | cancelOp pid =>
    have hst : stepOp m s (.cancelOp pid)
        = ⟨(deactivate_sick_day pid s.records s.world).state,
           (deactivate_sick_day pid s.records s.world).world⟩ := rfl
    have hrn : runOp m s (.cancelOp pid)
        = deactivate_sick_day pid s.records s.world := rfl
    rw [hst, hrn]
    rcases hrec : get_person_state s.records pid with _ | rec
    · rw [deactivate_sick_day_none pid s.records s.world hrec]
      exact ⟨⟨hw, hn⟩, by simp⟩
    · simp only [deactivate_sick_day_some pid s.records s.world rec hrec]
      have hna : a ∉ rec.disabled_automations :=
        hnall _ (dictGet_some_mem hrec)
      set st' := remove_person_state s.records pid with hst'
      set tre := (rec.disabled_automations.filter
        (fun x => decide (x ∉ get_all_currently_disabled st'))).dedup
        with htre
      have hnre : a ∉ tre := by
        rw [htre, List.mem_dedup, List.mem_filter]
        rintro ⟨hx, _⟩
        exact hna hx
      have hw2 : a ∉ tre.foldl turnOn s.world := by
        intro hx
        rcases mem_foldl_turnOn hx with hx | hx
        · exact hw hx
        · exact hnre hx
      refine ⟨⟨?_, ?_⟩, ?_⟩
      · by_cases hnl : (!has_active_sick_days st') = true
        · rw [if_pos hnl]
          intro hx
          exact hw2 (mem_turnOff_iff.mp hx).1
        · rw [if_neg hnl]
          exact hw2
      · rw [numOwners_eq_zero_iff]
        intro e he
        exact hnall e (mem_dictRemove he)
      · intro hx
        rw [List.mem_append, List.mem_append] at hx
        rcases hx with (hx | hx) | hx
        · rw [List.mem_map] at hx
          obtain ⟨x, hxm, hxe⟩ := hx
          injection hxe with hxa
          exact hnre (hxa ▸ hxm)
        · by_cases hnl : (!has_active_sick_days st') = true
          · rw [if_pos hnl] at hx
            simp at hx
          · rw [if_neg hnl] at hx
            cases hx
        · simp at hx
  | expireOp today =>
    have hst : stepOp m s (.expireOp today)
        = ⟨(check_expirations today s.records s.world).state,
           (check_expirations today s.records s.world).world⟩ := rfl
    have hrn : runOp m s (.expireOp today)
        = check_expirations today s.records s.world := rfl
    rw [hst, hrn]
    simp only [check_expirations]
    by_cases hemp : ((s.records.filter
        (fun e => pyStrLe e.2.end_date today)).map (·.1)).isEmpty = true
    · rw [if_pos hemp]
      exact ⟨⟨hw, hn⟩, by simp⟩
    · rw [if_neg hemp]
      set expd := (s.records.filter
        (fun e => pyStrLe e.2.end_date today)).map (·.1) with hexp
      obtain ⟨hf1, hf2, hf3⟩ := expireStep_fold_orphan s.records hn expd
        (s.records, s.world, []) ⟨hn, hw, by simp⟩
      refine ⟨⟨?_, hf1⟩, ?_⟩
      · by_cases hnl : (!has_active_sick_days
            ((expd.foldl (expireStep s.records) (s.records, s.world, [])).1))
            = true
        · rw [if_pos hnl]
          intro hx
          exact hf2 (mem_turnOff_iff.mp hx).1
        · rw [if_neg hnl]
          exact hf2
      · intro hx
        rw [List.mem_append, List.mem_append] at hx
        rcases hx with (hx | hx) | hx
        · exact hf3 hx
        · by_cases hnl : (!has_active_sick_days
              ((expd.foldl (expireStep s.records) (s.records, s.world, [])).1))
              = true
          · rw [if_pos hnl] at hx
            simp at hx
          · rw [if_neg hnl] at hx
            cases hx
        · simp at hx

/-- A whole operation sequence preserves orphanhood and never issues a
turn-on for the orphaned automation. -/
theorem orphan_runOps (m : Mapping) {a : String} (hA : a ≠ ENTITY_ACTIVE)
    (s : Sys) (ops : List Op) (ho : orphan s a) :
    orphan (runOps m s ops) a ∧ Ev.turnOnEv a ∉ runTrace m s ops := by
  induction ops generalizing s with
  | nil =>
    refine ⟨ho, ?_⟩
    show Ev.turnOnEv a ∉ ([] : List Ev)
    simp
  | cons op rest ih =>
    obtain ⟨h1, h2⟩ := orphan_step m s op hA ho
    obtain ⟨h3, h4⟩ := ih (stepOp m s op) h1
    refine ⟨h3, ?_⟩
    show Ev.turnOnEv a ∉ (runOp m s op).trace ++ runTrace m (stepOp m s op) rest
    rw [List.mem_append]
    rintro (hx | hx)
    · exact h2 hx
    · exact h4 hx

end OrphanLemmas

section StringOrderLemmas

theorem charListLe_iff : ∀ (xs ys : List Char), charListLe xs ys = true ↔ xs ≤ ys
  | [], ys => by
    simp [charListLe]
  | c :: cs, [] => by
    simp only [charListLe, Bool.false_eq_true, false_iff]
    intro h
    rw [← not_lt] at h
    exact h (List.nil_lt_cons c cs)
  | c :: cs, d :: ds => by
    show (if c < d then true else if d < c then false else charListLe cs ds)
      = true ↔ _
    rcases lt_trichotomy c d with hcd | hcd | hcd
    · rw [if_pos hcd]
      constructor
      · intro _
        exact le_of_lt (List.Lex.rel hcd)
      · intro _
        rfl
    · subst hcd
      rw [if_neg (lt_irrefl c), if_neg (lt_irrefl c),
          charListLe_iff cs ds]
      constructor
      · intro h
        rw [← not_lt] at h ⊢
        intro hlex
        exact h (List.Lex.cons_iff.mp hlex)
      · intro h
        rw [← not_lt] at h ⊢
        intro hlex
        exact h (List.Lex.cons hlex)
    · rw [if_neg (asymm hcd), if_pos hcd]
      simp only [Bool.false_eq_true, false_iff]
      intro hle
      rw [← not_lt] at hle
      exact hle (List.Lex.rel hcd)

/-- The embedded Python string comparison agrees with the string order. -/
theorem pyStrLe_iff (a b : String) : pyStrLe a b = true ↔ a ≤ b := by
  rw [String.le_iff_toList_le]
  exact charListLe_iff a.data b.data

end StringOrderLemmas

section Claims

/-- C1 (amended): for every sequence of activate and cancel operations in
the all-calls-succeed model in which no activate targets a person who
already has an active record, the shared-automation invariant is preserved
at every point between operations: an automation (other than the active
indicator entity) is off iff at least one active record's
`disabled_automations` includes it, and at most one record includes it.
The no-reactivation restriction is forced by `claim1_counterexample`. -/
theorem claim1_shared_ownership_inv (m : Mapping) (a : String) (s : Sys)
    (ops pre suf : List Op)
    (hA : a ≠ ENTITY_ACTIVE)
    (hac : actCancelOnly ops = true)
    (hnr : noReactivate m s ops = true)
    (hg : goodKeys s.records)
    (hInv : sharedInv s a)
    (hsplit : ops = pre ++ suf) :
    sharedInv (runOps m s pre) a := by
  subst hsplit
  exact sharedInv_runOps m hA s pre (actCancelOnly_append hac)
    (noReactivate_append m hnr) hg hInv

/-- Witness for C1: two people sharing one automation; activate both, then
cancel the first; the invariant holds at the end of the sequence. -/
theorem claim1_witness :
    sharedInv
      (runOps [("person.p1", ["automation.x"]), ("person.p2", ["automation.x"])]
        ⟨[], ["automation.x"]⟩
        [Op.activateOp "person.p1" "2025-02-01",
         Op.activateOp "person.p2" "2025-02-02",
         Op.cancelOp "person.p1"]) "automation.x" :=
  claim1_shared_ownership_inv
    [("person.p1", ["automation.x"]), ("person.p2", ["automation.x"])]
    "automation.x" ⟨[], ["automation.x"]⟩
    [Op.activateOp "person.p1" "2025-02-01",
     Op.activateOp "person.p2" "2025-02-02",
     Op.cancelOp "person.p1"]
    [Op.activateOp "person.p1" "2025-02-01",
     Op.activateOp "person.p2" "2025-02-02",
     Op.cancelOp "person.p1"]
    []
    (by decide) (by decide) (by decide) (by decide) (by decide)
    (by simp)

/-- Counterexample to C1 as stated: with two people sharing one
automation, activating the same person twice in a row (every control call
succeeding) breaks the invariant — after the second activate the shared
automation is off but no active record includes it. -/
theorem claim1_counterexample :
    ("automation.x" : String) ≠ ENTITY_ACTIVE
    ∧ actCancelOnly [Op.activateOp "person.p1" "2025-02-01",
        Op.activateOp "person.p1" "2025-02-02"] = true
    ∧ goodKeys (Sys.mk [] ["automation.x"]).records
    ∧ sharedInv ⟨[], ["automation.x"]⟩ "automation.x"
    ∧ ¬ sharedInv
        (runOps
          [("person.p1", ["automation.x"]), ("person.p2", ["automation.x"])]
          ⟨[], ["automation.x"]⟩
          [Op.activateOp "person.p1" "2025-02-01",
           Op.activateOp "person.p1" "2025-02-02"]) "automation.x" :=
  ⟨by decide, by decide, by decide, by decide, by decide⟩

/-- C2: cancelling a person with an existing record deletes that person's
record first, recomputes `still_needed` as the union of
`disabled_automations` over the remaining records, and issues `turn_on`
for exactly the owned automations not in `still_needed`; consequently it
never turns on an automation that appears in another still-active
record's `disabled_automations`. -/
theorem claim2_cancel_delete_first (pid : String) (st : ActiveState)
    (world : WorldOn) (rec : SickDayRecord)
    (h : get_person_state st pid = some rec) :
    (deactivate_sick_day pid st world).state = remove_person_state st pid
    ∧ (∀ a : String,
        Ev.turnOnEv a ∈ (deactivate_sick_day pid st world).trace
          ↔ a ∈ rec.disabled_automations
            ∧ a ∉ get_all_currently_disabled (remove_person_state st pid))
    ∧ (∀ e ∈ (deactivate_sick_day pid st world).state,
        ∀ a ∈ e.2.disabled_automations,
          Ev.turnOnEv a ∉ (deactivate_sick_day pid st world).trace) := by
  simp only [deactivate_sick_day_some pid st world rec h]
  have htrace : ∀ a : String,
      Ev.turnOnEv a ∈
        ((rec.disabled_automations.filter (fun x =>
            decide (x ∉ get_all_currently_disabled
              (remove_person_state st pid)))).dedup.map Ev.turnOnEv
          ++ (if (!has_active_sick_days (remove_person_state st pid)) = true
              then [Ev.turnOffEv ENTITY_ACTIVE] else [])
          ++ [Ev.dismissEv NOTIFICATION_EXPIRATION,
              Ev.notifyEv NOTIFICATION_CONFIRMATION])
        ↔ a ∈ rec.disabled_automations
          ∧ a ∉ get_all_currently_disabled (remove_person_state st pid) := by
    intro a
    rw [List.mem_append, List.mem_append]
    constructor
    · rintro ((hm | hm) | hm)
      · rw [List.mem_map] at hm
        obtain ⟨x, hx, hxa⟩ := hm
        cases hxa
        rw [List.mem_dedup, List.mem_filter] at hx
        exact ⟨hx.1, by simpa using hx.2⟩
      · by_cases hnl : (!has_active_sick_days (remove_person_state st pid))
          = true
        · rw [if_pos hnl] at hm
          exact absurd hm (by simp)
        · rw [if_neg hnl] at hm
          cases hm
      · exact absurd hm (by simp)
    · rintro ⟨h1, h2⟩
      left; left
      apply List.mem_map_of_mem
      rw [List.mem_dedup, List.mem_filter]
      exact ⟨h1, by simpa using h2⟩
  refine ⟨by trivial, htrace, ?_⟩
  intro e he a ha hmem
  have := (htrace a).mp hmem
  exact this.2 (mem_get_all_currently_disabled.mpr ⟨e, he, ha⟩)

/-- Witness for C2 at a concrete two-record state: cancelling `p1`
re-enables only the automation not still owned by `p2`. -/
theorem claim2_witness :
    (deactivate_sick_day "p1"
      [("p1", ⟨"2025-02-01", ["A", "B"]⟩), ("p2", ⟨"2025-02-03", ["B"]⟩)]
      []).state = remove_person_state
        [("p1", ⟨"2025-02-01", ["A", "B"]⟩), ("p2", ⟨"2025-02-03", ["B"]⟩)]
        "p1"
    ∧ (Ev.turnOnEv "A" ∈ (deactivate_sick_day "p1"
        [("p1", ⟨"2025-02-01", ["A", "B"]⟩), ("p2", ⟨"2025-02-03", ["B"]⟩)]
        []).trace
       ↔ ("A" ∈ ["A", "B"]
          ∧ "A" ∉ get_all_currently_disabled (remove_person_state
              [("p1", ⟨"2025-02-01", ["A", "B"]⟩),
               ("p2", ⟨"2025-02-03", ["B"]⟩)] "p1"))) := by
  have hc := claim2_cancel_delete_first "p1"
    [("p1", ⟨"2025-02-01", ["A", "B"]⟩), ("p2", ⟨"2025-02-03", ["B"]⟩)]
    [] ⟨"2025-02-01", ["A", "B"]⟩ (by decide)
  exact ⟨hc.1, hc.2.1 "A"⟩

/-- C4: for a resolved person, extend with an existing record replaces
only `end_date` — the record's `disabled_automations` is unchanged, no
automation is commanded on or off, every other person's record is
unchanged; with no record it fails with no state mutation and no calls. -/
theorem claim4_extend_frame (m : Mapping) (friendly : String → Option String)
    (name ed : String) (st : ActiveState) (world : WorldOn) (pid : String)
    (hres : resolve_person_entity m friendly name = some pid) :
    (∀ rec : SickDayRecord, get_person_state st pid = some rec →
      (extend_sick_day m friendly name ed st world).state
          = set_person_state st pid ed rec.disabled_automations
      ∧ get_person_state
          (extend_sick_day m friendly name ed st world).state pid
          = some ⟨ed, rec.disabled_automations⟩
      ∧ (∀ q : String, q ≠ pid →
          get_person_state
            (extend_sick_day m friendly name ed st world).state q
            = get_person_state st q)
      ∧ (extend_sick_day m friendly name ed st world).world = world
      ∧ (∀ x : String,
          Ev.turnOnEv x ∉ (extend_sick_day m friendly name ed st world).trace
          ∧ Ev.turnOffEv x
              ∉ (extend_sick_day m friendly name ed st world).trace)
      ∧ (extend_sick_day m friendly name ed st world).ok = true)
    ∧ (get_person_state st pid = none →
        (extend_sick_day m friendly name ed st world)
          = { state := st, world := world, trace := [], ok := false }) := by
  constructor
  · intro rec hrec
    rw [extend_sick_day_some m friendly name ed st world pid rec hres hrec]
    refine ⟨rfl, ?_, ?_, rfl, ?_, rfl⟩
    · exact dictGet_dictInsert_self st pid ⟨ed, rec.disabled_automations⟩
    · intro q hq
      exact dictGet_dictInsert_ne st hq ⟨ed, rec.disabled_automations⟩
    · intro x
      constructor <;> simp
  · intro hnone
    exact extend_sick_day_none m friendly name ed st world pid hres hnone

/-- Witness for C4 on a concrete state: extending `p1` rewrites only its
end date; `p2`'s record is untouched; extending `p3` (no record) fails. -/
theorem claim4_witness :
    (extend_sick_day [("p1", ["A"]), ("p3", ["C"])] (fun _ => none)
        "p1" "2025-03-07"
        [("p1", ⟨"2025-03-01", ["A"]⟩), ("p2", ⟨"2025-03-02", ["B"]⟩)]
        ["w"]).state
      = set_person_state
          [("p1", ⟨"2025-03-01", ["A"]⟩), ("p2", ⟨"2025-03-02", ["B"]⟩)]
          "p1" "2025-03-07" ["A"]
    ∧ (extend_sick_day [("p1", ["A"]), ("p3", ["C"])] (fun _ => none)
        "p3" "2025-03-07"
        [("p1", ⟨"2025-03-01", ["A"]⟩), ("p2", ⟨"2025-03-02", ["B"]⟩)]
        ["w"])
      = { state := [("p1", ⟨"2025-03-01", ["A"]⟩),
                    ("p2", ⟨"2025-03-02", ["B"]⟩)],
          world := ["w"], trace := [], ok := false } := by
  constructor
  · exact ((claim4_extend_frame [("p1", ["A"]), ("p3", ["C"])] (fun _ => none)
      "p1" "2025-03-07"
      [("p1", ⟨"2025-03-01", ["A"]⟩), ("p2", ⟨"2025-03-02", ["B"]⟩)]
      ["w"] "p1" (by decide)).1 ⟨"2025-03-01", ["A"]⟩ (by decide)).1
  · exact (claim4_extend_frame [("p1", ["A"]), ("p3", ["C"])] (fun _ => none)
      "p3" "2025-03-07"
      [("p1", ⟨"2025-03-01", ["A"]⟩), ("p2", ⟨"2025-03-02", ["B"]⟩)]
      ["w"] "p3" (by decide)).2 (by decide)

/-- C6: activate returns failure iff the person does not resolve or the
resolved person's mapping entry is absent or empty; on failure it writes
no record and leaves state and world unchanged; the per-automation
failure oracle never changes the return value.  Cancel and extend on a
person with no active record are rejected with no mutation and no calls. -/
theorem claim6_error_handling (m : Mapping) (friendly : String → Option String)
    (fails : String → Bool) (name ed : String) (st : ActiveState)
    (world : WorldOn) :
    ((activate_sick_day m friendly fails name ed st world).ok = false
      ↔ resolve_person_entity m friendly name = none
        ∨ ∃ pid, resolve_person_entity m friendly name = some pid
            ∧ ((dictGet m pid).getD []).isEmpty = true)
    ∧ ((activate_sick_day m friendly fails name ed st world).ok = false →
        (activate_sick_day m friendly fails name ed st world).state = st
        ∧ (activate_sick_day m friendly fails name ed st world).world = world)
    ∧ (∀ fails' : String → Bool,
        (activate_sick_day m friendly fails name ed st world).ok
          = (activate_sick_day m friendly fails' name ed st world).ok)
    ∧ (∀ pid : String, get_person_state st pid = none →
        deactivate_sick_day pid st world
          = { state := st, world := world, trace := [], ok := false })
    ∧ (∀ pid : String, resolve_person_entity m friendly name = some pid →
        get_person_state st pid = none →
        extend_sick_day m friendly name ed st world
          = { state := st, world := world, trace := [], ok := false }) := by
  refine ⟨?_, ?_, ?_, ?_, ?_⟩
  · rcases hres : resolve_person_entity m friendly name with _ | pid
    · rw [activate_sick_day_unresolved m friendly fails name ed st world hres]
      simp [hres]
    · rw [activate_sick_day_resolved m friendly fails name ed st world
        pid hres]
      by_cases hemp : ((dictGet m pid).getD []).isEmpty = true
      · rw [if_pos hemp]
        constructor
        · intro _
          exact Or.inr ⟨pid, rfl, hemp⟩
        · intro _
          rfl
      · rw [if_neg hemp]
        constructor
        · intro hfalse
          cases hfalse
        · rintro (hn | ⟨pid', hp', hemp'⟩)
          · cases hn
          · cases hp'
            exact absurd hemp' hemp
  · rcases hres : resolve_person_entity m friendly name with _ | pid
    · rw [activate_sick_day_unresolved m friendly fails name ed st world hres]
      intro _
      exact ⟨rfl, rfl⟩
    · rw [activate_sick_day_resolved m friendly fails name ed st world
        pid hres]
      by_cases hemp : ((dictGet m pid).getD []).isEmpty = true
      · rw [if_pos hemp]
        intro _
        exact ⟨rfl, rfl⟩
      · rw [if_neg hemp]
        intro hfalse
        cases hfalse
  · intro fails'
    rcases hres : resolve_person_entity m friendly name with _ | pid
    · rw [activate_sick_day_unresolved m friendly fails name ed st world hres,
          activate_sick_day_unresolved m friendly fails' name ed st world hres]
    · rw [activate_sick_day_resolved m friendly fails name ed st world
          pid hres,
          activate_sick_day_resolved m friendly fails' name ed st world
          pid hres]
      by_cases hemp : ((dictGet m pid).getD []).isEmpty = true
      · rw [if_pos hemp, if_pos hemp]
      · rw [if_neg hemp, if_neg hemp]
  · intro pid hnone
    exact deactivate_sick_day_none pid st world hnone
  · intro pid hres hnone
    exact extend_sick_day_none m friendly name ed st world pid hres hnone

/-- Witness for C6: an unresolvable display name makes activate fail. -/
theorem claim6_witness :
    (activate_sick_day [("p1", ["A"])] (fun _ => none) (fun _ => false)
      "ghost" "2025-01-02" [] []).ok = false :=
  (claim6_error_handling [("p1", ["A"])] (fun _ => none) (fun _ => false)
    "ghost" "2025-01-02" [] []).1.mpr (Or.inl (by decide))

/-- Keys are injective on a document with distinct keys. -/
theorem goodKeys_key_inj {st : ActiveState} (hg : goodKeys st)
    {e e' : String × SickDayRecord} (he : e ∈ st) (he' : e' ∈ st)
    (hk : e.1 = e'.1) : e = e' := by
  induction st with
  | nil => cases he
  | cons x rest ih =>
    obtain ⟨hx, hrest⟩ := List.nodup_cons.mp hg
    rcases List.mem_cons.mp he with rfl | he2 <;>
      rcases List.mem_cons.mp he' with rfl | he2'
    · rfl
    · exact absurd (hk ▸ List.mem_map_of_mem Prod.fst he2') hx
    · exact absurd (hk ▸ List.mem_map_of_mem Prod.fst he2) hx
    · exact ih hrest he2 he2'

/-- The expiration fold adds no notification to the trace. -/
theorem expireStep_fold_no_notify (snap : ActiveState) (l : List String)
    (acc : ActiveState × WorldOn × List Ev) :
    ((l.foldl (expireStep snap) acc).2.2).filter isNotify
      = acc.2.2.filter isNotify := by
  induction l generalizing acc with
  | nil => rfl
  | cons p rest ih =>
    rw [List.foldl_cons, ih]
    unfold expireStep
    rcases dictGet snap p with _ | rec
    · rfl
    · show (acc.2.2 ++ _).filter isNotify = _
      rw [List.filter_append]
      have hmap : ∀ l' : List String,
          (l'.map Ev.turnOnEv).filter isNotify = [] := by
        intro l'
        induction l' with
        | nil => rfl
        | cons y ys ihy => simpa [isNotify] using ihy
      rw [hmap]
      simp

/-- C5: a record is expired exactly when its `end_date` compares
less-or-equal (string order) to today's date; with no expired record
`check_expirations` is a pure no-op; with at least one expired record it
issues exactly one notification, the combined expiration notification. -/
theorem claim5_expirations (today : String) (st : ActiveState)
    (world : WorldOn) (hg : goodKeys st) :
    (∀ e ∈ st,
      (e.1 ∈ (st.filter (fun x => pyStrLe x.2.end_date today)).map Prod.fst
        ↔ e.2.end_date ≤ today))
    ∧ ((∀ e ∈ st, ¬(e.2.end_date ≤ today)) →
        check_expirations today st world
          = { state := st, world := world, trace := [], ok := true })
    ∧ ((∃ e ∈ st, e.2.end_date ≤ today) →
        notifyCount (check_expirations today st world).trace = 1
        ∧ Ev.notifyEv NOTIFICATION_EXPIRATION
            ∈ (check_expirations today st world).trace) := by
  refine ⟨?_, ?_, ?_⟩
  · intro e he
    constructor
    · intro hmem
      rw [List.mem_map] at hmem
      obtain ⟨e', he', hk⟩ := hmem
      have he'2 := List.mem_of_mem_filter he'
      have hp := List.of_mem_filter he'
      have : e' = e := goodKeys_key_inj hg he'2 he hk
      subst this
      exact (pyStrLe_iff _ _).mp hp
    · intro hle
      exact List.mem_map_of_mem Prod.fst
        (List.mem_filter.mpr ⟨he, (pyStrLe_iff _ _).mpr hle⟩)
  · intro hnone
    have hfil : st.filter (fun x => pyStrLe x.2.end_date today) = [] :=
      List.filter_eq_nil.mpr
        (fun e he => by rw [pyStrLe_iff]; exact hnone e he)
    unfold check_expirations
    rw [hfil]
    rfl
  · rintro ⟨e, he, hle⟩
    have hne : ((st.filter (fun x =>
        pyStrLe x.2.end_date today)).map Prod.fst).isEmpty = false := by
      have : e ∈ st.filter (fun x => pyStrLe x.2.end_date today) :=
        List.mem_filter.mpr ⟨he, (pyStrLe_iff _ _).mpr hle⟩
      rcases hfe : st.filter (fun x => pyStrLe x.2.end_date today) with
        _ | ⟨y, ys⟩
      · rw [hfe] at this
        cases this
      · rw [hfe]
        rfl
    unfold check_expirations
    rw [Bool.eq_false_iff] at hne
    rw [if_neg (by simpa using hne)]
    constructor
    · show notifyCount (_ ++ _ ++ [Ev.notifyEv NOTIFICATION_EXPIRATION]) = 1
      unfold notifyCount
      rw [List.filter_append, List.filter_append, List.length_append,
          List.length_append, expireStep_fold_no_notify]
      have h1 : (([] : List Ev)).filter isNotify = [] := rfl
      show (([] : List Ev).filter isNotify).length + _ + _ = 1
      rw [h1]
      by_cases hnl : (!has_active_sick_days
          ((((st.filter (fun x => pyStrLe x.2.end_date today)).map
            Prod.fst)).foldl (expireStep st) (st, world, [])).1) = true
      · rw [if_pos hnl]
        rfl
      · rw [if_neg hnl]
        rfl
    · show Ev.notifyEv NOTIFICATION_EXPIRATION
        ∈ _ ++ _ ++ [Ev.notifyEv NOTIFICATION_EXPIRATION]
      rw [List.mem_append]
      exact Or.inr (List.mem_singleton.mpr rfl)

/-- Witness for C5 at a concrete state: one expired and one current
record. -/
theorem claim5_witness :
    (("p1", (⟨"2025-01-01", ["A"]⟩ : SickDayRecord)).1
      ∈ ((([("p1", ⟨"2025-01-01", ["A"]⟩),
            ("p2", ⟨"2025-06-01", ["B"]⟩)] : ActiveState).filter
          (fun x => pyStrLe x.2.end_date "2025-03-01")).map Prod.fst)
      ↔ ("2025-01-01" : String) ≤ "2025-03-01")
    ∧ notifyCount (check_expirations "2025-03-01"
        [("p1", ⟨"2025-01-01", ["A"]⟩), ("p2", ⟨"2025-06-01", ["B"]⟩)]
        []).trace = 1 := by
  have h := claim5_expirations "2025-03-01"
    [("p1", ⟨"2025-01-01", ["A"]⟩), ("p2", ⟨"2025-06-01", ["B"]⟩)]
    [] (by decide)
  refine ⟨h.1 ("p1", ⟨"2025-01-01", ["A"]⟩) (by decide), ?_⟩
  exact (h.2.2 ⟨("p1", ⟨"2025-01-01", ["A"]⟩), by decide,
    (pyStrLe_iff _ _).mp (by decide)⟩).1

/-- C3 (amended): `verify_state_on_startup` keeps a tracked automation
exactly when its live state is "off" or the live query raises, and drops
it whenever the query returns any other state (not only "on"); each
record becomes its filtered form; the state document is written exactly
when some record changed; and a second run on unchanged external state
writes nothing.  The drop condition is widened from the claim as forced
by `claim3_counterexample`. -/
theorem claim3_verify_amended (live : String → LiveResult)
    (st : ActiveState) :
    (∀ a : String, keepAuto live a = true
      ↔ (live a = .ok "off" ∨ live a = .err))
    ∧ (∀ (pid : String) (rec : SickDayRecord), dictGet st pid = some rec →
        dictGet (verify_state_on_startup live st).1 pid
          = some ⟨rec.end_date,
              rec.disabled_automations.filter (keepAuto live)⟩)
    ∧ ((verify_state_on_startup live st).2 = false
        ↔ (verify_state_on_startup live st).1 = st)
    ∧ (verify_state_on_startup live
        (verify_state_on_startup live st).1).2 = false := by
  refine ⟨?_, ?_, ?_, ?_⟩
  · intro a
    unfold keepAuto
    rcases hl : live a with v | _
    · constructor
      · intro hv
        left
        rw [show v = "off" from by simpa using hv]
      · rintro (hv | hv)
        · cases hv
          simp
        · cases hv
    · simp
  · intro pid rec hget
    show dictGet (st.map (fun e => (e.1, verifyRecord live e.2))) pid = _
    rw [dictGet_map_val (verifyRecord live) st pid, hget]
    rfl
  · unfold verify_state_on_startup
    show (st.any _ = false)
      ↔ st.map (fun e => (e.1, verifyRecord live e.2)) = st
    rw [List.any_eq_false]
    constructor
    · intro hall
      have hcongr : ∀ e ∈ st, (e.1, verifyRecord live e.2) = id e := by
        intro e he
        have hlen := hall e he
        simp only [decide_eq_true_eq, not_not] at hlen
        have hfix : e.2.disabled_automations.filter (keepAuto live)
            = e.2.disabled_automations :=
          (List.filter_sublist _).eq_of_length hlen
        show (e.1, verifyRecord live e.2) = e
        unfold verifyRecord
        rw [hfix]
      rw [List.map_congr_left hcongr, List.map_id]
    · intro hmap e he
      have hfe : (e.1, verifyRecord live e.2) = e :=
        map_eq_self_forall hmap e he
      have h2 : verifyRecord live e.2 = e.2 := congrArg Prod.snd hfe
      have h3 : e.2.disabled_automations.filter (keepAuto live)
          = e.2.disabled_automations :=
        congrArg SickDayRecord.disabled_automations h2
      simp [h3]
  · unfold verify_state_on_startup
    show ((st.map fun e => (e.1, verifyRecord live e.2)).any _) = false
    rw [List.any_eq_false]
    intro e' he'
    rw [List.mem_map] at he'
    obtain ⟨e, _, rfl⟩ := he'
    have hff : (e.2.disabled_automations.filter (keepAuto live)).filter
        (keepAuto live) = e.2.disabled_automations.filter (keepAuto live) := by
      rw [List.filter_filter]
      simp
    simp [verifyRecord, hff]

/-- Counterexample to C3 as stated: an automation whose live query
succeeds with state "unknown" (not "on") is dropped from
`disabled_automations`, while the claim says an automation is dropped
only when its live state is on. -/
theorem claim3_counterexample :
    (verify_state_on_startup (fun _ => .ok "unknown")
        [("p1", ⟨"2025-01-01", ["A"]⟩)]).1
      = [("p1", ⟨"2025-01-01", []⟩)]
    ∧ (fun _ : String => (LiveResult.ok "unknown")) "A" ≠ .ok "on"
    ∧ (fun _ : String => (LiveResult.ok "unknown")) "A" ≠ .err :=
  ⟨by decide, by decide, by decide⟩

/-- Witness for C3 on a concrete state: one automation off, one now on,
one erroring; the record keeps exactly the off and erroring ones. -/
theorem claim3_witness :
    dictGet (verify_state_on_startup
      (fun a => if a = "A" then .ok "off"
                else if a = "B" then .ok "on" else .err)
      [("p1", ⟨"2025-01-01", ["A", "B", "C"]⟩)]).1 "p1"
      = some ⟨"2025-01-01",
          (["A", "B", "C"].filter (keepAuto
            (fun a => if a = "A" then .ok "off"
                      else if a = "B" then .ok "on" else .err)))⟩ :=
  (claim3_verify_amended
    (fun a => if a = "A" then .ok "off"
              else if a = "B" then .ok "on" else .err)
    [("p1", ⟨"2025-01-01", ["A", "B", "C"]⟩)]).2.1
    "p1" ⟨"2025-01-01", ["A", "B", "C"]⟩ (by decide)

/-- C10: `verify_state_on_startup` never adds or removes a record and
never changes an `end_date`: the keys are identical before and after, and
every record keeps its key and end date while its `disabled_automations`
becomes a sublist (subsequence) of what it was. -/
theorem claim10_verify_startup_frame (live : String → LiveResult)
    (st : ActiveState) :
    ((verify_state_on_startup live st).1).map Prod.fst = st.map Prod.fst
    ∧ List.Forall₂ (fun e e' : String × SickDayRecord =>
        e.1 = e'.1 ∧ e.2.end_date = e'.2.end_date
        ∧ e'.2.disabled_automations.Sublist e.2.disabled_automations)
        st (verify_state_on_startup live st).1 := by
  constructor
  · show (st.map (fun e => (e.1, verifyRecord live e.2))).map Prod.fst = _
    rw [List.map_map]
    rfl
  · show List.Forall₂ _ st (st.map (fun e => (e.1, verifyRecord live e.2)))
    induction st with
    | nil => exact List.Forall₂.nil
    | cons e rest ih =>
      exact List.Forall₂.cons
        ⟨rfl, rfl, List.filter_sublist _⟩ ih

/-- C7 (amended): for a day-count, the HTTP entry point clamps it into
1..365 (non-numeric becomes 1) while the driver entry point converts it
without clamping (non-numeric becomes 1); an explicit ISO date is passed
through verbatim at both entry points, except that the driver falls back
to one day when the date entity is missing, empty or "unknown".  Only the
clamping clause changes from the claim, forced by
`claim7_counterexample`. -/
theorem claim7_end_date_amended (parsed : Option Int) (raw : String)
    (end_date_entity : Option String) :
    (web_compute_end_date "days" parsed raw
        = .daysFromToday (max 1 (min (parsed.getD 1) 365)))
    ∧ (∀ dt : String, dt ≠ "days" →
        web_compute_end_date dt parsed raw = .literal raw)
    ∧ (parsed = none →
        web_compute_end_date "days" parsed raw = .daysFromToday 1)
    ∧ (main_compute_end_date DURATION_NUM_DAYS parsed end_date_entity
        = .daysFromToday (parsed.getD 1))
    ∧ (parsed = none →
        main_compute_end_date DURATION_NUM_DAYS parsed end_date_entity
          = .daysFromToday 1)
    ∧ (∀ dt s : String, dt ≠ DURATION_NUM_DAYS →
        end_date_entity = some s → s ≠ "" → s ≠ "unknown" →
        main_compute_end_date dt parsed end_date_entity = .literal s)
    ∧ (∀ dt : String, dt ≠ DURATION_NUM_DAYS →
        (end_date_entity = none ∨ end_date_entity = some ""
          ∨ end_date_entity = some "unknown") →
        main_compute_end_date dt parsed end_date_entity
          = .daysFromToday 1) := by
  refine ⟨?_, ?_, ?_, ?_, ?_, ?_, ?_⟩
  · simp [web_compute_end_date]
  · intro dt hdt
    simp [web_compute_end_date, hdt]
  · intro hp
    subst hp
    simp [web_compute_end_date]
  · simp [main_compute_end_date]
  · intro hp
    subst hp
    simp [main_compute_end_date]
  · intro dt s hdt hee hs1 hs2
    subst hee
    simp [main_compute_end_date, hdt, hs1, hs2]
  · rintro dt hdt (hee | hee | hee) <;> subst hee <;>
      simp [main_compute_end_date, hdt]

/-- Witness for C7: concrete clamped, pass-through and driver
pass-through evaluations. -/
theorem claim7_witness :
    web_compute_end_date "days" (some 400) "ignored"
      = .daysFromToday (max 1 (min 400 365))
    ∧ web_compute_end_date "date" (some 400) "2025-04-01"
      = .literal "2025-04-01"
    ∧ main_compute_end_date "Until Date" (some 400) (some "2025-04-01")
      = .literal "2025-04-01" := by
  have h := claim7_end_date_amended (some 400) "2025-04-01"
    (some "2025-04-01")
  refine ⟨claim7_end_date_amended (some 400) "ignored" none |>.1,
          h.2.1 "date" (by decide), ?_⟩
  exact h.2.2.2.2.2.1 "Until Date" "2025-04-01" (by decide) rfl
    (by decide) (by decide)

/-- Counterexample to C7 as stated: the driver entry point
(`main._compute_end_date`) does not clamp — a stored day-count of 400
yields today plus 400 days, not today plus 365. -/
theorem claim7_counterexample :
    main_compute_end_date DURATION_NUM_DAYS (some 400) none
      = .daysFromToday 400
    ∧ main_compute_end_date DURATION_NUM_DAYS (some 400) none
      ≠ .daysFromToday (max 1 (min 400 365)) :=
  ⟨by decide, by decide⟩

/-- C8 (amended): each toggle handler resets its toggle after the engine
call whenever the call returns, whether it returned success or failure;
but when the engine call raises, the reset is skipped and the exception
propagates to the poll loop, leaving the toggle on.  The raising case is
forced by `claim8_counterexample`. -/
theorem claim8_toggle_reset_amended (person_sel resolved : Option String)
    (b : Bool) :
    ((handle_submit person_sel (.returns b)).resetIssued = true)
    ∧ ((handle_cancel resolved (.returns b)).resetIssued = true)
    ∧ ((handle_extend person_sel (.returns b)).resetIssued = true)
    ∧ ((handle_submit person_sel .raises).dispatched = true →
        (handle_submit person_sel .raises).resetIssued = false
        ∧ (handle_submit person_sel .raises).raised = true)
    ∧ ((handle_cancel resolved .raises).dispatched = true →
        (handle_cancel resolved .raises).resetIssued = false
        ∧ (handle_cancel resolved .raises).raised = true)
    ∧ ((handle_extend person_sel .raises).dispatched = true →
        (handle_extend person_sel .raises).resetIssued = false
        ∧ (handle_extend person_sel .raises).raised = true) := by
  refine ⟨?_, ?_, ?_, ?_, ?_, ?_⟩
  · by_cases hp : noPersonSelected person_sel = true <;>
      simp [handle_submit, hp]
  · rcases resolved with _ | name <;> simp [handle_cancel]
  · by_cases hp : noPersonSelected person_sel = true <;>
      simp [handle_extend, hp]
  · by_cases hp : noPersonSelected person_sel = true <;>
      simp [handle_submit, hp]
  · rcases resolved with _ | name <;> simp [handle_cancel]
  · by_cases hp : noPersonSelected person_sel = true <;>
      simp [handle_extend, hp]

/-- Witness for C8: submit with a failed (returning) engine call still
resets the toggle. -/
theorem claim8_witness :
    (handle_submit (some "Alice") (.returns false)).resetIssued = true :=
  (claim8_toggle_reset_amended (some "Alice") (some "p1") false).1

/-- Counterexample to C8 as stated: when the engine call raises, the
toggle is dispatched but never reset. -/
theorem claim8_counterexample :
    (handle_submit (some "Alice") .raises).dispatched = true
    ∧ (handle_submit (some "Alice") .raises).resetIssued = false
    ∧ (handle_submit (some "Alice") .raises).raised = true :=
  ⟨by decide, by decide, by decide⟩

/-- C9: re-activating a person who already has an active record replaces
that record wholesale; a mapped automation the old record owned that is
currently off and owned by no other record is classified skipped (with
observed state "off") and excluded from the new record, so after the
re-activation it is off with no owner, and no later operation — cancel,
expiration or further activation — ever commands it back on. -/
theorem claim9_reactivation_orphan (m : Mapping) (s : Sys)
    (pid ed a : String) (oldRec : SickDayRecord)
    (hA : a ≠ ENTITY_ACTIVE)
    (hget : dictGet s.records pid = some oldRec)
    (haold : a ∈ oldRec.disabled_automations)
    (hoff : a ∉ s.world)
    (hothers : ∀ e ∈ s.records, e.1 ≠ pid → a ∉ e.2.disabled_automations)
    (hmap : a ∈ (dictGet m pid).getD []) :
    ((a, "off") ∈ (activateLoop (already_disabled_by s.records pid)
        (fun _ => false) s.world ((dictGet m pid).getD [])).skipped)
    ∧ (a ∉ (activateLoop (already_disabled_by s.records pid)
        (fun _ => false) s.world ((dictGet m pid).getD [])).actually_disabled)
    ∧ dictGet (stepOp m s (.activateOp pid ed)).records pid
        = some ⟨ed, (activateLoop (already_disabled_by s.records pid)
            (fun _ => false) s.world
            ((dictGet m pid).getD [])).actually_disabled⟩
    ∧ orphan (stepOp m s (.activateOp pid ed)) a
    ∧ ∀ later : List Op,
        Ev.turnOnEv a ∉ runTrace m (stepOp m s (.activateOp pid ed)) later := by
  have hany : (m.any fun e => decide (e.1 = pid)) = true := by
    rcases hmg : dictGet m pid with _ | autos
    · rw [hmg] at hmap
      cases hmap
    · exact List.any_eq_true.mpr
        ⟨(pid, autos), dictGet_some_mem hmg, by simp⟩
  have hres : resolve_person_entity m (fun _ => none) pid = some pid := by
    rw [resolve_none_friendly, if_pos hany]
  have hempne : ¬((dictGet m pid).getD []).isEmpty = true := by
    rcases hl : (dictGet m pid).getD [] with _ | ⟨x, xs⟩
    · rw [hl] at hmap
      cases hmap
    · simp
  set r := activateLoop (already_disabled_by s.records pid)
    (fun _ => false) s.world ((dictGet m pid).getD []) with hr
  have hshape : activate_sick_day m (fun _ => none) (fun _ => false) pid ed
      s.records s.world
      = { state := set_person_state s.records pid ed r.actually_disabled,
          world := turnOn r.world ENTITY_ACTIVE,
          trace := r.trace ++ [Ev.turnOnEv ENTITY_ACTIVE,
                               Ev.notifyEv NOTIFICATION_CONFIRMATION],
          ok := true } := by
    rw [activate_sick_day_resolved m _ _ pid ed s.records s.world pid hres,
        if_neg hempne]
  have hstep : stepOp m s (.activateOp pid ed)
      = ⟨set_person_state s.records pid ed r.actually_disabled,
         turnOn r.world ENTITY_ACTIVE⟩ := by
    show (⟨(activate_sick_day m (fun _ => none) (fun _ => false) pid ed
        s.records s.world).state,
      (activate_sick_day m (fun _ => none) (fun _ => false) pid ed
        s.records s.world).world⟩ : Sys) = _
    rw [hshape]
  have hnd : a ∉ r.actually_disabled := activateLoop_off_not_disabled hoff
  have hnw : a ∉ r.world := activateLoop_world_not_mem hoff
  have horph : orphan (stepOp m s (.activateOp pid ed)) a := by
    rw [hstep]
    constructor
    · intro hmem
      rcases mem_turnOn_iff.mp hmem with hx | hx
      · exact hnw hx
      · exact hA hx
    · rw [numOwners_eq_zero_iff]
      intro e he
      rcases mem_dictInsert he with ⟨hest, hkey⟩ | rfl
      · exact hothers e hest hkey
      · exact hnd
  refine ⟨?_, hnd, ?_, horph, ?_⟩
  · exact activateLoop_skipped hoff (by rfl)
      (adbLookup_already_eq_none hothers) hmap
  · rw [hstep]
    exact dictGet_dictInsert_self s.records pid _
  · intro later
    exact (orphan_runOps m hA _ later horph).2

/-- Witness for C9: person `p1` owns automation `A` (off), re-activates;
`A` becomes an orphan and a later cancel plus expiration pass never turns
it on. -/
theorem claim9_witness :
    orphan (stepOp [("p1", ["A"])]
      ⟨[("p1", ⟨"2025-02-01", ["A"]⟩)], []⟩
      (.activateOp "p1" "2025-02-05")) "A"
    ∧ Ev.turnOnEv "A" ∉ runTrace [("p1", ["A"])]
        (stepOp [("p1", ["A"])]
          ⟨[("p1", ⟨"2025-02-01", ["A"]⟩)], []⟩
          (.activateOp "p1" "2025-02-05"))
        [Op.cancelOp "p1", Op.expireOp "9999-12-31"] := by
  have h := claim9_reactivation_orphan [("p1", ["A"])]
    ⟨[("p1", ⟨"2025-02-01", ["A"]⟩)], []⟩
    "p1" "2025-02-05" "A" ⟨"2025-02-01", ["A"]⟩
    (by decide) (by decide) (by decide) (by decide)
    (by intro e he hne; simp at he; rw [he] at hne; exact absurd rfl hne)
    (by decide)
  exact ⟨h.2.2.2.1, h.2.2.2.2 [Op.cancelOp "p1", Op.expireOp "9999-12-31"]⟩

end Claims

end SickDay
